import Mathlib

/-!
Shallow embedding of the Gram-Connect team-recommendation engine
(`backend/m3_recommend.py`, `backend/recommender_service.py`,
`backend/utils.py`) over exact rational arithmetic.  External oracles
(the text-embedding cosine similarity, the learned classifier, the
pseudo-random sampler and the exponential used for the distance
penalty) are passed in as function parameters, matching the spec's
treatment of them as opaque collaborators.  Python floats are
idealised as rationals.
-/

namespace GramConnect

/-- Tolerance used by the greedy tie-breaking (`1e-9` in the source). -/
def EPS : ℚ := 1 / 1000000000

/-- A responder record as produced by `read_people` and annotated in
place by the pipeline stages (extra derived fields default to the
values the raw record would have). -/
structure Person where
  pid : String
  name : String
  text : String
  skills : List String
  W : ℚ
  availability : String
  homeLocation : String
  WOriginal : ℚ := 0
  WBase : ℚ := 0
  overworkHours : ℚ := 0
  distanceKm : ℚ := 0
  distancePenalty : ℚ := 1
  availLevel : ℚ := 1
  sevLevel : ℚ := 0
  sevPenalty : ℚ := 0
deriving Repr, DecidableEq

/-- Team metrics bundle computed by `team_metrics`. -/
structure Metrics where
  coverage : ℚ
  redundancy : ℚ
  setSize : ℚ
  kRobustness : ℚ
  willingnessAvg : ℚ
  willingnessMin : ℚ
deriving Repr, DecidableEq

-- ------------------- similarity_coverage -------------------

/-- All member skill phrases of a team (`member_phrases` in
`similarity_coverage`). -/
def memberPhrases (members : List Person) : List String :=
  members.flatMap (fun m => m.skills)

/-- `per_member_best[u][i]`: the best willingness-weighted similarity
of member `m` to requirement `r`; the numpy accumulator starts at
zero, so the value is clamped below at 0. -/
def perMemberBest (sim : String → String → ℚ) (m : Person) (r : String) : ℚ :=
  (m.skills.map (fun sk => sim r sk * m.W)).foldl max 0

/-- `per_req_best[i]`: the best weighted similarity to requirement `r`
over all team members (0 when the team contributes no phrases,
matching the early-return branch). -/
def perReqBest (sim : String → String → ℚ) (members : List Person) (r : String) : ℚ :=
  (members.map (fun m => perMemberBest sim m r)).foldl max 0

/-- Per-requirement coverage contribution (the `adj` loop of
`similarity_coverage`): 0 below `tau`, a step function when
`1 - tau ≤ 1e-6`, otherwise `min 1 ((s - tau)/(1 - tau))`. -/
def covAdjust (tau s : ℚ) : ℚ :=
  if s < tau then 0
  else if 1 - tau ≤ 1 / 1000000 then 1
  else min 1 ((s - tau) / (1 - tau))

/-- Mean of a list of rationals, 0 if empty (`np.mean` guarded by
`if len(adj)`). -/
def listMean (l : List ℚ) : ℚ :=
  if l = [] then 0 else l.sum / l.length

/-- Overall coverage of `similarity_coverage`: 0 for an empty
requirement list, 0 when the team contributes no member phrases,
otherwise the mean of the per-requirement contributions. -/
def similarityCoverage (sim : String → String → ℚ) (required : List String)
    (members : List Person) (tau : ℚ) : ℚ :=
  if required = [] then 0
  else if memberPhrases members = [] then 0
  else listMean (required.map (fun r => covAdjust tau (perReqBest sim members r)))

/-- `covered_counts[r]`: number of members whose best weighted
similarity to `r` reaches `tau` (0 in the no-phrases early return). -/
def coveredCounts (sim : String → String → ℚ) (members : List Person)
    (tau : ℚ) (r : String) : Nat :=
  if memberPhrases members = [] then 0
  else (members.filter (fun m => decide (tau ≤ perMemberBest sim m r))).length

/-- `redundancy_metric`: fraction of requirements covered by at least
two members. -/
def redundancyMetric (required : List String) (counts : String → Nat) : ℚ :=
  if required = [] then 0
  else ((required.filter (fun r => decide (2 ≤ counts r))).length : ℚ) / required.length

/-- The saturation test `all(v >= tau for v in per_req_best.values())`
used by `k_robustness`. -/
def reqSat (sim : String → String → ℚ) (required : List String)
    (members : List Person) (tau : ℚ) : Bool :=
  required.all (fun r => decide (tau ≤ perReqBest sim members r))

-- ------------------- k_robustness -------------------

/-- `itertools.combinations` of a list taken `r` at a time, in the
same lexicographic order. -/
def combos : List Nat → Nat → List (List Nat)
  | _, 0 => [[]]
  | [], _ + 1 => []
  | x :: xs, r + 1 => (combos xs r).map (fun c => x :: c) ++ combos xs (r + 1)

/-- The subset-accumulation loop of `k_robustness`: extend with all
combinations of the current size, and break out of the loop as soon as
the accumulated count exceeds the sampling limit. -/
def buildSubsetsGo (n limit : Nat) : Nat → Nat → List (List Nat) → List (List Nat)
  | 0, _, acc => acc
  | fuel + 1, r, acc =>
      let acc2 := acc ++ combos (List.range n) r
      if limit < acc2.length then acc2
      else buildSubsetsGo n limit fuel (r + 1) acc2

/-- The list of member-removal index subsets accumulated by
`k_robustness` before any sampling. -/
def kRobustnessPool (n k limit : Nat) : List (List Nat) :=
  buildSubsetsGo n limit k 1 []

/-- The complete enumeration of removal subsets of sizes `1..k`, as
described by the spec sentence "Enumerate all member-removal subsets
of size 1..k". -/
def specSubsets (n k : Nat) : List (List Nat) :=
  (List.range' 1 k).flatMap (fun r => combos (List.range n) r)

/-- `sub_members`: the team with the members at the removed indices
dropped. -/
def removeIdx (members : List Person) (rem : List Nat) : List Person :=
  ((List.range members.length).zip members).filterMap
    (fun p => if p.1 ∈ rem then none else some p.2)

/-- `k = max(1, min(k, n - 1 if n > 1 else 1))`. -/
def clampK (k n : Nat) : Nat :=
  max 1 (min k (if 1 < n then n - 1 else 1))

/-- The subsets actually scored: the accumulated pool, passed through
the sampling oracle when it exceeds the limit. -/
def kRobustnessSampled (sample : List (List Nat) → Nat → List (List Nat))
    (n kk limit : Nat) : List (List Nat) :=
  let pool := kRobustnessPool n kk limit
  if limit < pool.length then sample pool limit else pool

/-- `k_robustness`: 0 for an empty team or an unsaturated team;
otherwise the fraction of (possibly sampled) removal subsets whose
remaining team still satisfies every requirement at `tau`.  The
pseudo-random `random.sample` with fixed seed 42 is abstracted as the
`sample` oracle. -/
def kRobustness (sample : List (List Nat) → Nat → List (List Nat))
    (sim : String → String → ℚ) (required : List String)
    (members : List Person) (tau : ℚ) (k limit : Nat) : ℚ :=
  if members = [] then 0
  else if ¬ reqSat sim required members tau then 0
  else
    let pool2 := kRobustnessSampled sample members.length (clampK k members.length) limit
    let ok := (pool2.filter
      (fun rem => reqSat sim required (removeIdx members rem) tau)).length
    if pool2 = [] then 0 else (ok : ℚ) / pool2.length

-- ------------------- team_metrics / goodness -------------------

/-- Minimum of a list of rationals, 0 if empty (`np.min` guarded by
`if w_vals`). -/
def listMinQ : List ℚ → ℚ
  | [] => 0
  | x :: xs => xs.foldl min x

/-- The fixed `sample_limit` default of `k_robustness`. -/
def sampleLimit : Nat := 2000

/-- `team_metrics`. -/
def teamMetrics (sample : List (List Nat) → Nat → List (List Nat))
    (sim : String → String → ℚ) (required : List String)
    (members : List Person) (tau : ℚ) (k : Nat) : Metrics :=
  { coverage := similarityCoverage sim required members tau
    redundancy := redundancyMetric required (coveredCounts sim members tau)
    setSize := min ((members.length : ℚ) / ((max required.length 4 : Nat) : ℚ)) 1
    kRobustness := kRobustness sample sim required members tau k sampleLimit
    willingnessAvg :=
      if members = [] then 0 else (members.map (fun m => m.W)).sum / members.length
    willingnessMin := listMinQ (members.map (fun m => m.W)) }

/-- `goodness`: the affinely normalised multi-objective score. -/
def goodnessScore (m : Metrics) (lr ls lw : ℚ) : ℚ :=
  (m.coverage + m.kRobustness + lw * m.willingnessAvg
    - lr * m.redundancy - ls * m.setSize + 2) / 4

/-- The `evaluate` closure of `run_recommender` (and `_evaluate_team`
of `recommender_service`): score plus metrics for a candidate team. -/
def evaluateTeam (sample : List (List Nat) → Nat → List (List Nat))
    (sim : String → String → ℚ) (required : List String) (tau : ℚ) (k : Nat)
    (lr ls lw : ℚ) (tlist : List Person) : ℚ × Metrics :=
  let m := teamMetrics sample sim required tlist tau k
  (goodnessScore m lr ls lw, m)

-- ------------------- rounding and team records -------------------

/-- Python's `round` on an exact value: round half to even. -/
def halfEvenRound (q : ℚ) : ℤ :=
  let f := ⌊q⌋
  let r := q - f
  if r < 1 / 2 then f
  else if 1 / 2 < r then f + 1
  else if 2 ∣ f then f else f + 1

/-- `round(q, d)` idealised over rationals. -/
def pyRound (q : ℚ) (d : Nat) : ℚ :=
  ((halfEvenRound (q * 10 ^ d) : ℤ) : ℚ) / 10 ^ d

/-- A recommendation row assembled by `add_rec` (and the analogous
record built in `generate_recommendations`). -/
structure TeamRec where
  teamIds : String
  teamNames : String
  teamSize : Nat
  goodness : ℚ
  coverage : ℚ
  kRobustness : ℚ
  redundancy : ℚ
  setSize : ℚ
  willingnessAvg : ℚ
  willingnessMin : ℚ
  members : List Person
  rank : Nat := 0
deriving Repr, DecidableEq

/-- `add_rec`: build the record for a team, rounding the scores as in
the source (goodness to 4 digits, the metrics to 3). -/
def mkRec (evalT : List Person → ℚ × Metrics) (tlist : List Person) : TeamRec :=
  let gm := evalT tlist
  { teamIds := String.intercalate ";" (tlist.map (fun m => m.pid))
    teamNames := String.intercalate "; " (tlist.map (fun m => m.name))
    teamSize := tlist.length
    goodness := pyRound gm.1 4
    coverage := pyRound gm.2.coverage 3
    kRobustness := pyRound gm.2.kRobustness 3
    redundancy := pyRound gm.2.redundancy 3
    setSize := pyRound gm.2.setSize 3
    willingnessAvg := pyRound gm.2.willingnessAvg 3
    willingnessMin := pyRound gm.2.willingnessMin 3
    members := tlist }

-- ------------------- greedy selection steps -------------------

/-- State threaded through one pass of the greedy candidate scan:
best candidate, its score, its metrics, its ranker probability, and
the best delta so far. -/
structure SelState where
  bestCand : Option Person
  bestScore : ℚ
  bestMets : Option Metrics
  bestProb : ℚ
  bestDelta : ℚ

/-- One iteration of the `m3_recommend.run_recommender` greedy scan
(lines 512-525): the selection condition is
`delta > best_delta + 1e-9 or (abs(delta - best_delta) <= 1e-9 and
prob > best_cand_prob)` — no coverage tie-break. -/
def m3SelectScan (evalT : List Person → ℚ × Metrics) (team : List Person)
    (teamIds : List String) (baseScore : ℚ) (st : SelState)
    (pp : Person × ℚ) : SelState :=
  if pp.1.pid ∈ teamIds then st
  else
    if st.bestDelta + EPS < (evalT (team ++ [pp.1])).1 - baseScore ∨
        (|(evalT (team ++ [pp.1])).1 - baseScore - st.bestDelta| ≤ EPS ∧
          st.bestProb < pp.2) then
      ⟨some pp.1, (evalT (team ++ [pp.1])).1, some (evalT (team ++ [pp.1])).2, pp.2,
        (evalT (team ++ [pp.1])).1 - baseScore⟩
    else st

/-- The full `m3_recommend` greedy scan over the ranked pool. -/
def m3SelectStep (evalT : List Person → ℚ × Metrics)
    (ranked : List (Person × ℚ)) (team : List Person)
    (teamIds : List String) (baseScore : ℚ) : SelState :=
  ranked.foldl (m3SelectScan evalT team teamIds baseScore) ⟨none, -1, none, -1, 0⟩

/-- One iteration of the `recommender_service.generate_recommendations`
greedy scan (lines 278-299): delta ties within `1e-9` are broken first
by strictly higher resulting coverage, then (coverage tie within
`1e-9`) by higher ranker probability.  A missing best candidate
contributes coverage `-1`. -/
def serviceSelectScan (evalT : List Person → ℚ × Metrics) (team : List Person)
    (teamIds : List String) (baseScore : ℚ) (st : SelState)
    (pp : Person × ℚ) : SelState :=
  if pp.1.pid ∈ teamIds then st
  else
    if st.bestDelta + EPS < (evalT (team ++ [pp.1])).1 - baseScore ∨
        (|(evalT (team ++ [pp.1])).1 - baseScore - st.bestDelta| ≤ EPS ∧
          ((match st.bestMets with
            | some m => m.coverage
            | none => -1) < (evalT (team ++ [pp.1])).2.coverage ∨
            (|(evalT (team ++ [pp.1])).2.coverage -
                (match st.bestMets with
                 | some m => m.coverage
                 | none => -1)| ≤ EPS ∧ st.bestProb < pp.2))) then
      ⟨some pp.1, (evalT (team ++ [pp.1])).1, some (evalT (team ++ [pp.1])).2, pp.2,
        (evalT (team ++ [pp.1])).1 - baseScore⟩
    else st

/-- The full `recommender_service` greedy scan over the ranked pool. -/
def serviceSelectStep (evalT : List Person → ℚ × Metrics)
    (ranked : List (Person × ℚ)) (team : List Person)
    (teamIds : List String) (baseScore : ℚ) : SelState :=
  ranked.foldl (serviceSelectScan evalT team teamIds baseScore) ⟨none, -1, none, -1, 0⟩

/-- The `while len(team) < soft_cap` greedy construction loop of
`run_recommender`, with the soft cap supplied as fuel: stop when no
candidate improves by more than `1e-9`, early-stop once coverage and
k-robustness both reach 0.999. -/
def m3BuildTeam (evalT : List Person → ℚ × Metrics)
    (ranked : List (Person × ℚ)) :
    Nat → List Person → List String → ℚ → List Person
  | 0, team, _, _ => team
  | fuel + 1, team, teamIds, bestScore =>
      match (m3SelectStep evalT ranked team teamIds bestScore).bestCand,
            (m3SelectStep evalT ranked team teamIds bestScore).bestMets with
      | some c, some cm =>
          if (m3SelectStep evalT ranked team teamIds bestScore).bestDelta ≤ EPS then team
          else
            if 999 / 1000 ≤ cm.coverage ∧ 999 / 1000 ≤ cm.kRobustness then team ++ [c]
            else m3BuildTeam evalT ranked fuel (team ++ [c]) (teamIds ++ [c.pid])
              (m3SelectStep evalT ranked team teamIds bestScore).bestScore
      | _, _ => team

/-- `soft_cap = config.team_size or config.soft_cap` (Python `or`:
`None` and `0` both fall back). -/
def softCapOf (teamSize : Option Nat) (softCap : Nat) : Nat :=
  match teamSize with
  | some n => if n = 0 then softCap else n
  | none => softCap

-- ------------------- variants, dedup, sort -------------------

/-- The swap-variant generation of `run_recommender`: for each of the
top-`max 1 topk_swap` ranked non-members and each slot of the base
team, replace that slot with the candidate and record the variant. -/
def variantRecs (evalT : List Person → ℚ × Metrics)
    (ranked : List (Person × ℚ)) (team : List Person) (topkSwap : Nat) :
    List TeamRec :=
  (ranked.take (max 1 topkSwap)).flatMap (fun pp =>
    if pp.1.pid ∈ team.map (fun m => m.pid) then []
    else (List.range team.length).map (fun i => mkRec evalT (team.set i pp.1)))

/-- One step of the Python dict comprehension
`{(r.team_ids, r.team_names): r for r in recs}`: keys keep their first
insertion position, values are overwritten by later records. -/
def upsertRec (acc : List ((String × String) × TeamRec)) (r : TeamRec) :
    List ((String × String) × TeamRec) :=
  if acc.any (fun kv => kv.1 = (r.teamIds, r.teamNames)) then
    acc.map (fun kv =>
      if kv.1 = (r.teamIds, r.teamNames) then ((r.teamIds, r.teamNames), r) else kv)
  else acc ++ [((r.teamIds, r.teamNames), r)]

/-- Deduplication by `(team_ids, team_names)` key. -/
def dedupRecs (recs : List TeamRec) : List TeamRec :=
  (recs.foldl upsertRec []).map (fun kv => kv.2)

/-- Strictly-greater comparison on the `(goodness, coverage)` sort key. -/
def recKeyGT (a b : TeamRec) : Bool :=
  decide (b.goodness < a.goodness) ||
    (decide (a.goodness = b.goodness) && decide (b.coverage < a.coverage))

/-- Stable insertion for a descending sort: a new element goes after
every earlier element it does not strictly beat. -/
def insertDescBy (gt : α → α → Bool) (x : α) : List α → List α
  | [] => [x]
  | y :: ys => if gt x y then x :: y :: ys else y :: insertDescBy gt x ys

/-- Stable descending sort (the semantics of Python's
`sorted(..., reverse=True)`). -/
def sortDescBy (gt : α → α → Bool) (l : List α) : List α :=
  l.foldl (fun acc r => insertDescBy gt r acc) []

-- ------------------- size buckets -------------------

/-- A parsed size bucket (`label:min-max:limit`); `maxSize = none`
stands for an unbounded bucket. -/
structure Bucket where
  label : String
  minSize : Nat
  maxSize : Option Nat
  limit : Nat
deriving Repr, DecidableEq

/-- Whether a team size falls in a bucket's range
(`size < min or (max is not inf and size > max)` negated). -/
def bucketMatches (b : Bucket) (size : Nat) : Bool :=
  decide (b.minSize ≤ size) &&
    (match b.maxSize with
     | none => true
     | some mx => decide (size ≤ mx))

/-- First occurrences of a list of labels, in order (Python dict-key
insertion order for `{b["label"]: [] for b in buckets}`). -/
def firstDedup : List String → List String
  | [] => []
  | x :: xs => x :: (firstDedup xs).filter (fun y => decide (y ≠ x))

/-- One iteration of the bucket-assignment loop of
`select_top_teams_by_size`: find the first bucket whose range matches
the team size and append the team to its group unless that group is
already at its limit. -/
def bucketAssign (buckets : List Bucket) (gr : List (String × List TeamRec))
    (team : TeamRec) : List (String × List TeamRec) :=
  match buckets.find? (fun b => bucketMatches b team.teamSize) with
  | none => gr
  | some b =>
      if ((((gr.find? (fun kv => decide (kv.1 = b.label))).map
          (fun kv => kv.2)).getD []).length < b.limit) then
        gr.map (fun kv => if kv.1 = b.label then (kv.1, kv.2 ++ [team]) else kv)
      else gr

/-- `select_top_teams_by_size`: walk the teams in order, assign each
to the first bucket whose range matches (dropping it if that bucket is
already full), then concatenate the per-label groups in declared
bucket order. -/
def selectTopTeamsBySize (teams : List TeamRec) (buckets : List Bucket) :
    List TeamRec :=
  if buckets = [] then teams
  else
    buckets.flatMap (fun b =>
      ((((teams.foldl (bucketAssign buckets)
          ((firstDedup (buckets.map (fun b => b.label))).map (fun l => (l, [])))).find?
            (fun kv => decide (kv.1 = b.label))).map
        (fun kv => kv.2)).getD []))

/-- `final = select_top_teams_by_size(sorted_recs, buckets) or
sorted_recs[:10]` in `run_recommender`. -/
def finalSelection (sortedRecs : List TeamRec) (buckets : List Bucket) :
    List TeamRec :=
  if selectTopTeamsBySize sortedRecs buckets = [] then sortedRecs.take 10
  else selectTopTeamsBySize sortedRecs buckets

/-- `config.num_teams or 10` (Python `or`). -/
def numTeamsOr10 (numTeams : Option Nat) : Nat :=
  match numTeams with
  | some n => if n = 0 then 10 else n
  | none => 10

/-- `final = select_top_teams_by_size(sorted_recs, buckets) or
sorted_recs[:config.num_teams or 10]` in `generate_recommendations`. -/
def finalSelectionService (sortedRecs : List TeamRec) (buckets : List Bucket)
    (numTeams : Option Nat) : List TeamRec :=
  if selectTopTeamsBySize sortedRecs buckets = [] then
    sortedRecs.take (numTeamsOr10 numTeams)
  else selectTopTeamsBySize sortedRecs buckets

-- ------------------- global uniqueness reconciliation -------------------

/-- The members of a team not yet claimed by earlier teams. -/
def keepMembers (asg : List String) (members : List Person) : List Person :=
  members.filter (fun m => decide (¬ m.pid ∈ asg))

/-- Rebuild a shrunk team record: updated members, ids, names, size,
and metrics/goodness recomputed for the kept member list (shared by
both reconciliation passes). -/
def recomputeRec (evalT : List Person → ℚ × Metrics) (r : TeamRec)
    (keep : List Person) : TeamRec :=
  let gm := evalT keep
  { r with
    members := keep
    teamIds := String.intercalate ";" (keep.map (fun m => m.pid))
    teamNames := String.intercalate "; " (keep.map (fun m => m.name))
    teamSize := keep.length
    goodness := pyRound gm.1 4
    coverage := pyRound gm.2.coverage 3
    kRobustness := pyRound gm.2.kRobustness 3
    redundancy := pyRound gm.2.redundancy 3
    setSize := pyRound gm.2.setSize 3
    willingnessAvg := pyRound gm.2.willingnessAvg 3
    willingnessMin := pyRound gm.2.willingnessMin 3 }

/-- The reconciliation loop of `run_recommender` (lines 560-591):
drop already-claimed members; drop the team if nothing remains;
recompute metrics when members were removed; additionally skip any
team after the first kept one whose goodness is below 0.2; claim the
kept members.  `started` records `len(resolved) > 0`. -/
def m3ReconcileAux (evalT : List Person → ℚ × Metrics) :
    List TeamRec → List String → Bool → List TeamRec
  | [], _, _ => []
  | r :: rs, asg, started =>
      let keep := keepMembers asg r.members
      if keep = [] then m3ReconcileAux evalT rs asg started
      else
        let r2 := if keep.length < r.members.length then recomputeRec evalT r keep else r
        if started ∧ r2.goodness < 1 / 5 then m3ReconcileAux evalT rs asg started
        else r2 :: m3ReconcileAux evalT rs (asg ++ keep.map (fun m => m.pid)) true

/-- The `for i, r in enumerate(resolved, start=1): r["rank"] = i`
loop, carrying the 0-based position. -/
def addRanksFrom : Nat → List TeamRec → List TeamRec
  | _, [] => []
  | i, t :: ts => { t with rank := i + 1 } :: addRanksFrom (i + 1) ts

/-- Assign 1-based ranks to the resolved list. -/
def addRanks (l : List TeamRec) : List TeamRec := addRanksFrom 0 l

/-- The full `m3_recommend` reconciliation stage including ranks. -/
def m3Reconcile (evalT : List Person → ℚ × Metrics) (teams : List TeamRec) :
    List TeamRec :=
  addRanks (m3ReconcileAux evalT teams [] false)

/-- `_enforce_unique_members` of `recommender_service` (lines 57-112):
drop already-claimed members, drop the team only when nothing remains,
recompute metrics when members were removed; no goodness threshold. -/
def enforceUniqueAux (evalT : List Person → ℚ × Metrics) :
    List TeamRec → List String → List TeamRec
  | [], _ => []
  | t :: ts, asg =>
      let keep := keepMembers asg t.members
      if keep = [] then enforceUniqueAux evalT ts asg
      else
        let t2 := if keep.length < t.members.length then recomputeRec evalT t keep
                  else { t with members := keep }
        t2 :: enforceUniqueAux evalT ts (asg ++ keep.map (fun m => m.pid))

/-- `_enforce_unique_members` started with an empty claimed set. -/
def enforceUnique (evalT : List Person → ℚ × Metrics) (teams : List TeamRec) :
    List TeamRec :=
  enforceUniqueAux evalT teams []

-- ------------------- candidate pool preparer -------------------

/-- ISO week key `(iso_year, iso_week)` (the calendar arithmetic of
`split_hours_by_week` lives outside the claims; keys are abstract). -/
def WeekKey := Nat × Nat
deriving instance DecidableEq, Repr for WeekKey

/-- Per-responder schedule data: busy intervals plus accumulated hours
per ISO week (the `schedule_map` entry, with dict `.get` defaults
folded into total functions). -/
structure ScheduleInfo where
  intervals : List (ℚ × ℚ)
  weekHours : WeekKey → ℚ

/-- `intervals_overlap` from `utils.py`: strict half-open overlap test
against the task interval. -/
def intervalsOverlapB (intervals : List (ℚ × ℚ)) (ni : ℚ × ℚ) : Bool :=
  intervals.any (fun se => decide (se.1 < ni.2) && decide (ni.1 < se.2))

/-- The overwork accumulation loop: for every ISO week touched by the
task, add `max 0 (existing + new − quota)`. -/
def overworkTotal (wh : WeekKey → ℚ) (taskWeekHours : List (WeekKey × ℚ))
    (quota : ℚ) : ℚ :=
  taskWeekHours.foldl (fun acc kh => acc + max 0 (wh kh.1 + kh.2 - quota)) 0

/-- The per-person annotation of the candidate pool preparer:
`adjusted_W = clamp(base_W − overwork_penalty × overwork_total, 0, 1)`,
recording `W_original`, `W_base` and `overwork_hours`. -/
def preparePerson (schedule : String → ScheduleInfo)
    (taskWeekHours : List (WeekKey × ℚ)) (quota pen : ℚ) (p : Person) : Person :=
  let ow := overworkTotal (schedule p.pid).weekHours taskWeekHours quota
  let aw := max 0 (min 1 (p.W - pen * ow))
  { p with WOriginal := p.W, WBase := aw, W := aw, overworkHours := ow }

/-- The filtering loop of `run_recommender` (lines 421-445): hard
exclusion of responders with a scheduled interval overlapping the task
interval, overwork adjustment for the rest. -/
def filteredPeople (schedule : String → ScheduleInfo) (task : ℚ × ℚ)
    (taskWeekHours : List (WeekKey × ℚ)) (quota pen : ℚ)
    (people : List Person) : List Person :=
  people.filterMap (fun p =>
    if !(schedule p.pid).intervals.isEmpty &&
        intervalsOverlapB (schedule p.pid).intervals task then none
    else some (preparePerson schedule taskWeekHours quota pen p))

-- ------------------- relevance ranker -------------------

/-- `AVAILABILITY_LEVELS.get(label, 1)` from `utils.py`. -/
def availabilityLevelOf (l : String) : Nat :=
  if l = "rarely available" then 0
  else if l = "generally available" then 1
  else if l = "immediately available" then 2
  else 1

/-- `severity_penalty` from `utils.py`
(`SEVERITY_AVAILABILITY_PENALTIES`). -/
def severityPenaltyOf (availLabel : String) (sev : Nat) : ℚ :=
  if sev = 2 then
    if availLabel = "generally available" then 1 / 5
    else if availLabel = "rarely available" then 2 / 5
    else 0
  else if sev = 1 then
    if availLabel = "rarely available" then 1 / 5 else 0
  else 0

/-- `lookup_distance_km` from `utils.py`, over an abstract symmetric
lowercase-keyed table. -/
def lookupDistanceKm (distLookup : String → String → Option ℚ)
    (origin target : String) : ℚ :=
  if origin = "" ∨ target = "" then 0
  else match distLookup origin.toLower target.toLower with
       | some d => d
       | none => 0

/-- The per-candidate annotation and feature construction of the
relevance ranker (`run_recommender` lines 467-498).  The exponential
of the distance penalty and the classifier are opaque oracles
(`expQ`, `clf`); `textSim` is the cosine similarity of the proposal
embedding with the candidate's text embedding. -/
def rankPerson (textSim : Person → ℚ) (clf : List ℚ → ℚ) (sev : Nat)
    (propLoc : String) (distLookup : String → String → Option ℚ)
    (dScale dDecay : ℚ) (expQ : ℚ → ℚ) (p : Person) : Person × ℚ :=
  let availLabel := p.availability.toLower
  let sevPen := severityPenaltyOf availLabel sev
  let wSev := max 0 (min 1 (p.WBase - sevPen))
  let dKm := lookupDistanceKm distLookup p.homeLocation propLoc
  let dNorm := if 0 < dScale then min (dKm / dScale) 1 else 0
  let dPen := if 0 < dDecay then expQ (-(dKm / dDecay)) else 1
  let wFin := max 0 (min 1 (wSev * dPen))
  let p2 := { p with
    W := wFin
    distanceKm := dKm
    distancePenalty := dPen
    availLevel := (availabilityLevelOf availLabel : ℚ)
    sevLevel := (sev : ℚ)
    sevPenalty := sevPen }
  let prob := clf [textSim p, textSim p * wFin, wFin, dNorm, dPen,
    (availabilityLevelOf availLabel : ℚ) / 2, (sev : ℚ) / 2]
  (p2, prob)

/-- The ranking stage: annotate every candidate, then stable-sort by
descending predicted probability. -/
def rankStage (textSim : Person → ℚ) (clf : List ℚ → ℚ) (sev : Nat)
    (propLoc : String) (distLookup : String → String → Option ℚ)
    (dScale dDecay : ℚ) (expQ : ℚ → ℚ) (people : List Person) :
    List (Person × ℚ) :=
  sortDescBy (fun a b => decide (b.2 < a.2))
    (people.map (rankPerson textSim clf sev propLoc distLookup dScale dDecay expQ))

-- ------------------- full m3 pipeline -------------------

/-- `VILLAGE_FALLBACK_SKILLS` (used when the resolved required-skill
list is empty). -/
def villageFallbackSkills : List String :=
  ["water quality assessment", "drainage design and de-silting",
   "handpump repair and maintenance", "borewell installation and rehabilitation",
   "rainwater harvesting", "fecal sludge management",
   "toilet construction and retrofitting", "solid waste segregation and composting",
   "hygiene behavior change communication", "river restoration",
   "watershed management", "groundwater assessment and monitoring",
   "check dam and nala bund construction", "farm pond design and maintenance",
   "soil testing and fertility management", "integrated pest management",
   "drip and sprinkler irrigation setup", "dairy and livestock management",
   "fisheries pond management", "solar microgrid design and maintenance",
   "solar pumping systems", "rural road maintenance and culvert repair",
   "culvert and causeway design", "low-cost housing construction and PMAY support",
   "panchayat planning and budgeting", "gram sabha facilitation",
   "self-help group formation and strengthening",
   "mgnrega works planning and measurement",
   "beneficiary identification and targeting", "public health outreach",
   "school wq testing and wash in schools", "anganwadi strengthening",
   "education and digital literacy", "tree plantation and survival monitoring",
   "erosion control and gully plugging", "biodiversity and habitat restoration",
   "disaster preparedness and response", "gis and remote sensing",
   "household survey and enumeration", "data analysis and reporting",
   "mobile data collection and dashboards", "sensor deployment and iot",
   "project management", "safety and risk management"]

/-- The base record plus swap-variant records for the greedily built
team (`add_rec(team)` followed by the variant loop). -/
def m3Recs (evalT : List Person → ℚ × Metrics) (ranked : List (Person × ℚ))
    (cap topkSwap : Nat) : List TeamRec :=
  mkRec evalT (m3BuildTeam evalT ranked cap [] [] (evalT []).1) ::
    variantRecs evalT ranked (m3BuildTeam evalT ranked cap [] [] (evalT []).1) topkSwap

/-- The core of `run_recommender` after text/skill acquisition:
validation, candidate-pool preparation, ranking, greedy construction,
swap variants, dedup, sort, size-bucket selection with top-10
fallback, and global uniqueness reconciliation.  `required` is the
already-resolved required-skill list (the empty-list fallback of the
source is applied here). -/
def runRecommender (schedule : String → ScheduleInfo) (task : ℚ × ℚ)
    (taskWeekHours : List (WeekKey × ℚ)) (quota pen : ℚ)
    (people : List Person) (required : List String) (sev : Nat)
    (propLoc : String) (distLookup : String → String → Option ℚ)
    (dScale dDecay : ℚ) (expQ : ℚ → ℚ) (textSim : Person → ℚ)
    (clf : List ℚ → ℚ) (sim : String → String → ℚ)
    (sample : List (List Nat) → Nat → List (List Nat)) (tau : ℚ)
    (kRobust : Nat) (lr ls lw : ℚ) (teamSize : Option Nat)
    (softCap topkSwap : Nat) (buckets : List Bucket) :
    Except String (List TeamRec) :=
  if task.2 ≤ task.1 then Except.error "task_end must be after task_start"
  else if people = [] then Except.error "No valid volunteers found in people data."
  else if filteredPeople schedule task taskWeekHours quota pen people = [] then
    Except.error "No available volunteers after applying constraints."
  else
    Except.ok (m3Reconcile
      (evaluateTeam sample sim (if required = [] then villageFallbackSkills else required)
        tau kRobust lr ls lw)
      (finalSelection
        (sortDescBy recKeyGT (dedupRecs
          (m3Recs
            (evaluateTeam sample sim
              (if required = [] then villageFallbackSkills else required)
              tau kRobust lr ls lw)
            (rankStage textSim clf sev propLoc distLookup dScale dDecay expQ
              (filteredPeople schedule task taskWeekHours quota pen people))
            (softCapOf teamSize softCap) topkSwap)))
        buckets))

-- ------------------- general helper lemmas -------------------

theorem foldl_add_map_sum (f : α → ℚ) (l : List α) (a : ℚ) :
    l.foldl (fun acc x => acc + f x) a = a + (l.map f).sum := by
  induction l generalizing a with
  | nil => simp
  | cons x xs ih => simp [ih, add_assoc]

theorem list_sum_le_length (l : List ℚ) (h : ∀ x ∈ l, x ≤ 1) :
    l.sum ≤ (l.length : ℚ) := by
  induction l with
  | nil => simp
  | cons x xs ih =>
      have hx := h x (List.mem_cons_self x xs)
      have hxs := ih (fun y hy => h y (List.mem_cons_of_mem x hy))
      simp only [List.sum_cons, List.length_cons]
      push_cast
      linarith

theorem list_sum_nonneg (l : List ℚ) (h : ∀ x ∈ l, 0 ≤ x) : 0 ≤ l.sum := by
  induction l with
  | nil => simp
  | cons x xs ih =>
      have hx := h x (List.mem_cons_self x xs)
      have hxs := ih (fun y hy => h y (List.mem_cons_of_mem x hy))
      simp only [List.sum_cons]
      linarith

theorem listMean_mem_Icc (l : List ℚ) (h : ∀ x ∈ l, 0 ≤ x ∧ x ≤ 1) :
    0 ≤ listMean l ∧ listMean l ≤ 1 := by
  unfold listMean
  split
  · exact ⟨le_refl 0, zero_le_one⟩
  · rename_i hne
    have hlen : 0 < (l.length : ℚ) := by
      have : 0 < l.length := List.length_pos.mpr hne
      exact_mod_cast this
    constructor
    · exact div_nonneg (list_sum_nonneg l (fun x hx => (h x hx).1)) (le_of_lt hlen)
    · rw [div_le_one hlen]
      exact list_sum_le_length l (fun x hx => (h x hx).2)

theorem covAdjust_mem_Icc (tau s : ℚ) : 0 ≤ covAdjust tau s ∧ covAdjust tau s ≤ 1 := by
  unfold covAdjust
  split_ifs with h1 h2
  · exact ⟨le_refl 0, zero_le_one⟩
  · exact ⟨zero_le_one, le_refl 1⟩
  · constructor
    · apply le_min zero_le_one
      apply div_nonneg
      · linarith [not_lt.mp h1]
      · linarith [not_le.mp h2]
    · exact min_le_left 1 _

-- ------------------- C2 -------------------

/-- C2: for every requirement list, team and threshold, if some
requirement's best willingness-weighted similarity over the full team
(`per_req_best`) is strictly below `tau`, then `k_robustness` returns
0, for every `k` (and every sampling limit and sampler). -/
theorem kRobustness_zero_of_unsaturated
    (sample : List (List Nat) → Nat → List (List Nat))
    (sim : String → String → ℚ) (required : List String)
    (members : List Person) (tau : ℚ) (k limit : Nat) (r : String)
    (hr : r ∈ required) (hlt : perReqBest sim members r < tau) :
    kRobustness sample sim required members tau k limit = 0 := by
  have hsat : reqSat sim required members tau = false := by
    rw [Bool.eq_false_iff]
    intro h
    have := List.all_eq_true.mp h r hr
    rw [decide_eq_true_eq] at this
    exact absurd this (not_le.mpr hlt)
  unfold kRobustness
  split
  · rfl
  · rw [if_pos]
    simp [hsat]

/-- Fixture: a similarity oracle that rates every pair 0. -/
def simZero : String → String → ℚ := fun _ _ => 0

/-- Fixture: a member whose only skill matches nothing. -/
def personY : Person :=
  { pid := "p1", name := "P1", text := "", skills := ["y"], W := 1,
    availability := "", homeLocation := "" }

theorem perReqBest_simZero_lt : perReqBest simZero [personY] "x" < 35 / 100 := by
  simp only [perReqBest, perMemberBest, personY, simZero, List.map_cons, List.map_nil,
    List.foldl_cons, List.foldl_nil]
  norm_num [max_def]

/-- Witness for `kRobustness_zero_of_unsaturated` at a concrete
one-member team whose per-requirement best similarity is 0 < τ. -/
theorem kRobustness_zero_of_unsaturated_witness :
    "x" ∈ ["x"] ∧ perReqBest simZero [personY] "x" < 35 / 100 ∧
    kRobustness (fun l m => l.take m) simZero ["x"] [personY] (35 / 100) 1 2000 = 0 :=
  ⟨List.mem_singleton.mpr rfl, perReqBest_simZero_lt,
    kRobustness_zero_of_unsaturated (fun l m => l.take m) simZero ["x"] [personY]
      (35 / 100) 1 2000 "x" (List.mem_singleton.mpr rfl) perReqBest_simZero_lt⟩

-- ------------------- C6 -------------------

/-- C6: coverage always lies in `[0, 1]`; coverage of an empty
requirement list is 0 for every team; and coverage of a team
contributing no member skill phrases is 0 for every requirement
list. -/
theorem similarityCoverage_bounds (sim : String → String → ℚ)
    (required : List String) (members : List Person) (tau : ℚ) :
    0 ≤ similarityCoverage sim required members tau ∧
    similarityCoverage sim required members tau ≤ 1 ∧
    similarityCoverage sim [] members tau = 0 ∧
    (memberPhrases members = [] → similarityCoverage sim required members tau = 0) := by
  refine ⟨?_, ?_, by simp [similarityCoverage], ?_⟩
  · unfold similarityCoverage
    split_ifs with h1 h2
    · exact le_refl 0
    · exact le_refl 0
    · refine (listMean_mem_Icc _ ?_).1
      intro x hx
      obtain ⟨r, _, hr⟩ := List.mem_map.mp hx
      exact hr ▸ covAdjust_mem_Icc tau (perReqBest sim members r)
  · unfold similarityCoverage
    split_ifs with h1 h2
    · exact zero_le_one
    · exact zero_le_one
    · refine (listMean_mem_Icc _ ?_).2
      intro x hx
      obtain ⟨r, _, hr⟩ := List.mem_map.mp hx
      exact hr ▸ covAdjust_mem_Icc tau (perReqBest sim members r)
  · intro h
    simp [similarityCoverage, h]

/-- Fixture: a member contributing no skill phrases at all. -/
def personNoSkills : Person :=
  { pid := "p2", name := "P2", text := "", skills := [], W := 1,
    availability := "", homeLocation := "" }

/-- Witness for `similarityCoverage_bounds`: concrete bounds plus the
no-phrases case discharged at a skill-less team. -/
theorem similarityCoverage_bounds_witness :
    memberPhrases [personNoSkills] = [] ∧
    similarityCoverage simZero ["x"] [personNoSkills] (35 / 100) = 0 ∧
    0 ≤ similarityCoverage simZero ["x"] [personY] (35 / 100) :=
  ⟨rfl,
    (similarityCoverage_bounds simZero ["x"] [personNoSkills] (35 / 100)).2.2.2 rfl,
    (similarityCoverage_bounds simZero ["x"] [personY] (35 / 100)).1⟩

-- ------------------- C7 -------------------

/-- C7: in the candidate pool preparer, every non-excluded responder's
`overwork_hours` equals the sum over affected ISO weeks of
`max 0 (existing + new − weekly_quota)`, its adjusted willingness is
`clamp(W − overwork_penalty × overwork_total, 0, 1)`, every element of
the filtered pool is such a prepared responder, and in particular with
`weekly_quota = 5`, `overwork_penalty = 0.1`, 4 existing hours and 3
new task hours in a single week, `overwork_total = 2` and `W` drops
from 0.5 to exactly 0.3. -/
theorem preparer_overwork_willingness (schedule : String → ScheduleInfo)
    (task : ℚ × ℚ) (taskWeekHours : List (WeekKey × ℚ)) (quota pen : ℚ)
    (p : Person) (people : List Person) :
    (preparePerson schedule taskWeekHours quota pen p).overworkHours =
      (taskWeekHours.map
        (fun kh => max 0 ((schedule p.pid).weekHours kh.1 + kh.2 - quota))).sum ∧
    (preparePerson schedule taskWeekHours quota pen p).W =
      max 0 (min 1 (p.W - pen *
        overworkTotal (schedule p.pid).weekHours taskWeekHours quota)) ∧
    (∀ q ∈ filteredPeople schedule task taskWeekHours quota pen people,
      ∃ q0 ∈ people, q = preparePerson schedule taskWeekHours quota pen q0) ∧
    overworkTotal (fun _ => 4) [((2026, 3), 3)] 5 = 2 ∧
    max (0 : ℚ) (min 1 (1 / 2 - 1 / 10 * overworkTotal (fun _ => 4) [((2026, 3), 3)] 5))
      = 3 / 10 := by
  have hconc : overworkTotal (fun _ => 4) [((2026, 3), 3)] 5 = 2 := by
    simp only [overworkTotal, List.foldl_cons, List.foldl_nil]
    norm_num [max_def]
  refine ⟨?_, rfl, ?_, hconc, by rw [hconc]; norm_num [max_def, min_def]⟩
  · show overworkTotal (schedule p.pid).weekHours taskWeekHours quota = _
    unfold overworkTotal
    rw [foldl_add_map_sum (fun kh => max 0 ((schedule p.pid).weekHours kh.1 + kh.2 - quota))
      taskWeekHours 0]
    simp
  · intro q hq
    obtain ⟨q0, hq0, hmap⟩ := List.mem_filterMap.mp hq
    refine ⟨q0, hq0, ?_⟩
    by_cases hcond : (!(schedule q0.pid).intervals.isEmpty &&
        intervalsOverlapB (schedule q0.pid).intervals task) = true
    · rw [if_pos hcond] at hmap
      exact absurd hmap (by simp)
    · rw [if_neg hcond] at hmap
      exact (Option.some_inj.mp hmap).symm

/-- Fixture: a schedule with 4 accumulated hours in every week and no
busy intervals. -/
def scheduleFourHours : String → ScheduleInfo :=
  fun _ => { intervals := [], weekHours := fun _ => 4 }

/-- Fixture: a responder with raw willingness 0.5. -/
def personHalfW : Person :=
  { pid := "p3", name := "P3", text := "", skills := ["s"], W := 1 / 2,
    availability := "", homeLocation := "" }

theorem preparedHalfW_mem :
    preparePerson scheduleFourHours [((2026, 3), 3)] 5 (1 / 10) personHalfW ∈
      filteredPeople scheduleFourHours (0, 1) [((2026, 3), 3)] 5 (1 / 10) [personHalfW] := by
  simp [filteredPeople, scheduleFourHours, intervalsOverlapB]

/-- Witness for `preparer_overwork_willingness`: the filtered-pool
membership conjunct discharged at a concrete one-responder pool,
reproducing the spec's numeric example (overwork 2, willingness
0.5 → 0.3). -/
theorem preparer_overwork_willingness_witness :
    (∃ q0 ∈ [personHalfW],
      preparePerson scheduleFourHours [((2026, 3), 3)] 5 (1 / 10) personHalfW =
        preparePerson scheduleFourHours [((2026, 3), 3)] 5 (1 / 10) q0) ∧
    (preparePerson scheduleFourHours [((2026, 3), 3)] 5 (1 / 10) personHalfW).overworkHours
      = 2 ∧
    (preparePerson scheduleFourHours [((2026, 3), 3)] 5 (1 / 10) personHalfW).W = 3 / 10 := by
  refine ⟨(preparer_overwork_willingness scheduleFourHours (0, 1) [((2026, 3), 3)] 5 (1 / 10)
      (preparePerson scheduleFourHours [((2026, 3), 3)] 5 (1 / 10) personHalfW)
      [personHalfW]).2.2.1 _ preparedHalfW_mem, ?_, ?_⟩
  · show overworkTotal (fun _ => 4) [((2026, 3), 3)] 5 = 2
    simp only [overworkTotal, List.foldl_cons, List.foldl_nil]
    norm_num [max_def]
  · show max 0 (min 1 (1 / 2 - 1 / 10 * overworkTotal (fun _ => 4) [((2026, 3), 3)] 5))
      = 3 / 10
    have hconc : overworkTotal (fun _ => 4) [((2026, 3), 3)] 5 = 2 := by
      simp only [overworkTotal, List.foldl_cons, List.foldl_nil]
      norm_num [max_def]
    rw [hconc]
    norm_num [max_def, min_def]

-- ------------------- C10 -------------------

theorem numTeamsOr10_pos (numTeams : Option Nat) : 0 < numTeamsOr10 numTeams := by
  unfold numTeamsOr10
  match numTeams with
  | none => exact Nat.succ_pos 9
  | some n =>
      by_cases h : n = 0
      · simp [h]
      · simpa [h] using Nat.pos_of_ne_zero h

/-- C10: when size buckets are configured but the size-bucket
selection is empty, both pipelines fall back to the global top teams
of the sorted list (`[:10]` in `m3_recommend`, `[:num_teams or 10]` in
`recommender_service`) instead of returning an empty stage result. -/
theorem bucket_fallback_top10 (sortedRecs : List TeamRec) (buckets : List Bucket)
    (numTeams : Option Nat) (_hb : buckets ≠ [])
    (hsel : selectTopTeamsBySize sortedRecs buckets = [])
    (hne : sortedRecs ≠ []) :
    finalSelection sortedRecs buckets = sortedRecs.take 10 ∧
    finalSelectionService sortedRecs buckets numTeams =
      sortedRecs.take (numTeamsOr10 numTeams) ∧
    finalSelection sortedRecs buckets ≠ [] ∧
    finalSelectionService sortedRecs buckets numTeams ≠ [] := by
  refine ⟨by simp [finalSelection, hsel], by simp [finalSelectionService, hsel], ?_, ?_⟩
  · intro hcontra
    simp only [finalSelection, hsel, if_pos, List.take_eq_nil_iff] at hcontra
    rcases hcontra with h | h
    · norm_num at h
    · exact hne h
  · intro hcontra
    simp only [finalSelectionService, hsel, if_pos, List.take_eq_nil_iff] at hcontra
    rcases hcontra with h | h
    · exact absurd h (Nat.pos_iff_ne_zero.mp (numTeamsOr10_pos numTeams))
    · exact hne h

/-- Fixture: a sorted-recs list holding one team of size 1. -/
def tinyRec : TeamRec :=
  { teamIds := "p1", teamNames := "P1", teamSize := 1, goodness := 1 / 2,
    coverage := 0, kRobustness := 0, redundancy := 0, setSize := 0,
    willingnessAvg := 1, willingnessMin := 1, members := [personY] }

/-- Fixture: a single bucket covering sizes 2..3 only. -/
def bucket23 : Bucket := { label := "small", minSize := 2, maxSize := some 3, limit := 10 }

/-- Witness for `bucket_fallback_top10`: a size-1 team matches no
bucket, the selection is empty, and both fallbacks return the team. -/
theorem bucket_fallback_top10_witness :
    selectTopTeamsBySize [tinyRec] [bucket23] = [] ∧
    finalSelection [tinyRec] [bucket23] = [tinyRec].take 10 ∧
    finalSelection [tinyRec] [bucket23] ≠ [] :=
  have hsel : selectTopTeamsBySize [tinyRec] [bucket23] = [] := by rfl
  ⟨hsel,
    (bucket_fallback_top10 [tinyRec] [bucket23] none (by simp) hsel (by simp)).1,
    (bucket_fallback_top10 [tinyRec] [bucket23] none (by simp) hsel (by simp)).2.2.1⟩

-- ------------------- C8 -------------------

/-- C8: whenever the schedule-overlap filter excludes every candidate,
`run_recommender` aborts with the validation error
"No available volunteers after applying constraints." and returns no
team list at all. -/
theorem empty_pool_aborts (schedule : String → ScheduleInfo) (task : ℚ × ℚ)
    (taskWeekHours : List (WeekKey × ℚ)) (quota pen : ℚ) (people : List Person)
    (required : List String) (sev : Nat) (propLoc : String)
    (distLookup : String → String → Option ℚ) (dScale dDecay : ℚ)
    (expQ : ℚ → ℚ) (textSim : Person → ℚ) (clf : List ℚ → ℚ)
    (sim : String → String → ℚ) (sample : List (List Nat) → Nat → List (List Nat))
    (tau : ℚ) (kRobust : Nat) (lr ls lw : ℚ) (teamSize : Option Nat)
    (softCap topkSwap : Nat) (buckets : List Bucket)
    (htask : task.1 < task.2) (hpeople : people ≠ [])
    (hfil : filteredPeople schedule task taskWeekHours quota pen people = []) :
    runRecommender schedule task taskWeekHours quota pen people required sev propLoc
        distLookup dScale dDecay expQ textSim clf sim sample tau kRobust lr ls lw
        teamSize softCap topkSwap buckets =
      Except.error "No available volunteers after applying constraints." := by
  unfold runRecommender
  rw [if_neg (not_le.mpr htask), if_neg hpeople, if_pos hfil]

/-- Fixture: a schedule that keeps every responder busy over `(0, 10)`. -/
def scheduleBusy : String → ScheduleInfo :=
  fun _ => { intervals := [(0, 10)], weekHours := fun _ => 0 }

theorem scheduleBusy_filters_all :
    filteredPeople scheduleBusy (2, 5) [] 5 (1 / 10) [personY] = [] := by
  simp only [filteredPeople, scheduleBusy, List.filterMap_cons, List.filterMap_nil]
  rw [if_pos]
  simp only [intervalsOverlapB, List.any_cons, List.any_nil, List.isEmpty_cons,
    Bool.not_false, Bool.true_and, Bool.or_false]
  rw [decide_eq_true (by norm_num : (0 : ℚ) < 5), decide_eq_true (by norm_num : (2 : ℚ) < 10)]
  rfl

/-- Witness for `empty_pool_aborts`: one responder, fully busy over
the task interval, yields the validation error. -/
theorem empty_pool_aborts_witness :
    runRecommender scheduleBusy (2, 5) [] 5 (1 / 10) [personY] ["x"] 1 ""
        (fun _ _ => none) 50 30 (fun _ => 1) (fun _ => 0) (fun _ => 0) simZero
        (fun l m => l.take m) (35 / 100) 1 1 1 (1 / 2) none 6 10 [] =
      Except.error "No available volunteers after applying constraints." :=
  empty_pool_aborts scheduleBusy (2, 5) [] 5 (1 / 10) [personY] ["x"] 1 ""
    (fun _ _ => none) 50 30 (fun _ => 1) (fun _ => 0) (fun _ => 0) simZero
    (fun l m => l.take m) (35 / 100) 1 1 1 (1 / 2) none 6 10 []
    (by norm_num) (by simp) scheduleBusy_filters_all

-- ------------------- C3 -------------------

theorem combos_length (l : List Nat) (r : Nat) :
    (combos l r).length = l.length.choose r := by
  induction l generalizing r with
  | nil => cases r <;> simp [combos]
  | cons x xs ih =>
      cases r with
      | zero => simp [combos]
      | succ r =>
          simp only [combos, List.length_append, List.length_map, ih,
            List.length_cons, Nat.choose_succ_succ]

theorem buildSubsetsGo_succ (n limit fuel r : Nat) (acc : List (List Nat)) :
    buildSubsetsGo n limit (fuel + 1) r acc =
      (if limit < (acc ++ combos (List.range n) r).length
       then acc ++ combos (List.range n) r
       else buildSubsetsGo n limit fuel (r + 1) (acc ++ combos (List.range n) r)) := rfl

theorem buildSubsetsGo_complete (n limit : Nat) (fuel : Nat) :
    ∀ (r : Nat) (acc : List (List Nat)),
      (acc ++ (List.range' r fuel).flatMap (fun j => combos (List.range n) j)).length
          ≤ limit →
      buildSubsetsGo n limit fuel r acc =
        acc ++ (List.range' r fuel).flatMap (fun j => combos (List.range n) j) := by
  induction fuel with
  | zero => intro r acc _; simp [buildSubsetsGo]
  | succ f ih =>
      intro r acc h
      have hexp : List.range' r (f + 1) = r :: List.range' (r + 1) f := by
        rw [List.range'_succ]
      rw [hexp] at h
      simp only [List.flatMap_cons] at h
      rw [buildSubsetsGo_succ]
      have hle : (acc ++ combos (List.range n) r).length ≤ limit := by
        simp only [List.length_append] at h ⊢
        omega
      rw [if_neg (not_lt.mpr hle)]
      rw [ih (r + 1) (acc ++ combos (List.range n) r) (by simpa [List.append_assoc] using h)]
      rw [hexp]
      simp [List.flatMap_cons, List.append_assoc]

theorem choose_63_2 : Nat.choose 63 2 = 1953 := by
  rw [Nat.choose_two_right]

theorem specSubsets_length_63_3 :
    (specSubsets 63 3).length = 2016 + Nat.choose 63 3 := by
  have h : specSubsets 63 3 =
      combos (List.range 63) 1 ++
        (combos (List.range 63) 2 ++ (combos (List.range 63) 3 ++ [])) := rfl
  rw [h, List.length_append, List.length_append, List.length_append, combos_length,
    combos_length, combos_length, List.length_range, List.length_nil,
    Nat.choose_one_right, choose_63_2]
  omega

theorem kRobustnessPool_63_3 :
    kRobustnessPool 63 3 2000 = combos (List.range 63) 1 ++ combos (List.range 63) 2 := by
  show buildSubsetsGo 63 2000 (2 + 1) 1 [] = _
  rw [buildSubsetsGo_succ]
  rw [if_neg (by simp only [List.length_append, List.length_nil, combos_length,
    List.length_range, Nat.choose_one_right]; omega)]
  show buildSubsetsGo 63 2000 (1 + 1) 2 _ = _
  rw [buildSubsetsGo_succ]
  rw [if_pos (by simp only [List.length_append, List.length_nil, combos_length,
    List.length_range, choose_63_2, Nat.choose_one_right]; omega)]
  simp

theorem kRobustnessPool_63_3_length : (kRobustnessPool 63 3 2000).length = 2016 := by
  rw [kRobustnessPool_63_3]
  simp only [List.length_append, combos_length, List.length_range,
    Nat.choose_one_right, choose_63_2]

/-- C3 counterexample: at team size 63 with `k = 3` the complete
enumeration of removal subsets of sizes 1..3 exceeds the sampling
limit of 2000, yet the accumulated list `k_robustness` samples from
stops after size 2 with only 2016 subsets — the loop `break`s as soon
as the accumulated count exceeds the limit, so subsets of size 3 are
never enumerated and the sample is not drawn from the complete
enumeration. -/
theorem kRobustness_enumeration_truncation_cex :
    2000 < (specSubsets 63 3).length ∧
    (kRobustnessPool 63 3 2000).length = 2016 ∧
    (kRobustnessPool 63 3 2000).length < (specSubsets 63 3).length ∧
    kRobustnessPool 63 3 2000 ≠ specSubsets 63 3 := by
  have hchoosepos : 0 < Nat.choose 63 3 := Nat.choose_pos (by omega)
  have hlt : (kRobustnessPool 63 3 2000).length < (specSubsets 63 3).length := by
    rw [kRobustnessPool_63_3_length, specSubsets_length_63_3]
    omega
  refine ⟨by rw [specSubsets_length_63_3]; omega, kRobustnessPool_63_3_length, hlt, ?_⟩
  intro h
  rw [h] at hlt
  exact lt_irrefl _ hlt

/-- C3 (amended): when the complete enumeration of removal subsets of
sizes `1..k'` (with `k'` the clamped `k`) fits within the sampling
limit, the accumulated pool is exactly the complete enumeration, no
sampling happens, and `k_robustness` of a fully saturated team equals
the fraction of those subsets whose remaining team still satisfies
every requirement at `tau`. -/
theorem kRobustness_complete_within_limit
    (sample : List (List Nat) → Nat → List (List Nat))
    (sim : String → String → ℚ) (required : List String)
    (members : List Person) (tau : ℚ) (k limit kk : Nat)
    (hne : members ≠ [])
    (hsat : reqSat sim required members tau = true)
    (hkk : kk = clampK k members.length)
    (hlen : (specSubsets members.length kk).length ≤ limit) :
    kRobustnessPool members.length kk limit = specSubsets members.length kk ∧
    kRobustness sample sim required members tau k limit =
      (((specSubsets members.length kk).filter
          (fun rem => reqSat sim required (removeIdx members rem) tau)).length : ℚ) /
        ((specSubsets members.length kk).length : ℚ) := by
  have hpool : kRobustnessPool members.length kk limit = specSubsets members.length kk := by
    unfold kRobustnessPool
    exact buildSubsetsGo_complete members.length limit kk 1 [] (by simpa [specSubsets] using hlen)
  refine ⟨hpool, ?_⟩
  have hspecne : specSubsets members.length kk ≠ [] := by
    have hn : 0 < members.length := List.length_pos.mpr hne
    have hkpos : 0 < kk := by
      rw [hkk]; exact Nat.le_max_left 1 _
    intro hcontra
    have hlen0 := congrArg List.length hcontra
    simp only [List.length_nil] at hlen0
    obtain ⟨m, hm⟩ : ∃ m, kk = m + 1 := ⟨kk - 1, by omega⟩
    rw [specSubsets, hm, List.range'_succ] at hlen0
    simp only [List.flatMap_cons, List.length_append, combos_length,
      List.length_range, Nat.choose_one_right] at hlen0
    omega
  have hsampled : kRobustnessSampled sample members.length (clampK k members.length) limit
      = specSubsets members.length kk := by
    unfold kRobustnessSampled
    rw [← hkk, hpool, if_neg (not_lt.mpr hlen)]
  unfold kRobustness
  rw [if_neg hne, if_neg (by simp [hsat])]
  simp only [hsampled]
  rw [if_neg hspecne]

/-- Fixture: a similarity oracle that rates every pair 1. -/
def simOne : String → String → ℚ := fun _ _ => 1

/-- Fixture: a second fully-skilled member. -/
def personZ : Person :=
  { pid := "p4", name := "P4", text := "", skills := ["z"], W := 1,
    availability := "", homeLocation := "" }

theorem reqSat_pair : reqSat simOne ["x"] [personY, personZ] (1 / 2) = true := by
  simp only [reqSat, List.all_cons, List.all_nil, Bool.and_true, decide_eq_true_eq,
    perReqBest, perMemberBest, personY, personZ, simOne, List.map_cons, List.map_nil,
    List.foldl_cons, List.foldl_nil]
  rw [max_eq_right (by norm_num : (0 : ℚ) ≤ 1 * 1)]
  norm_num [max_def]

/-- Witness for `kRobustness_complete_within_limit` at a saturated
two-member team with `k = 1`: the two singleton-removal subsets fit
within the limit. -/
theorem kRobustness_complete_within_limit_witness :
    [personY, personZ] ≠ [] ∧
    reqSat simOne ["x"] [personY, personZ] (1 / 2) = true ∧
    (specSubsets 2 1).length ≤ 2000 ∧
    kRobustness (fun l m => l.take m) simOne ["x"] [personY, personZ] (1 / 2) 1 2000 =
      (((specSubsets 2 1).filter
          (fun rem => reqSat simOne ["x"] (removeIdx [personY, personZ] rem) (1 / 2))).length : ℚ) /
        ((specSubsets 2 1).length : ℚ) :=
  ⟨by simp, reqSat_pair, by decide,
    (kRobustness_complete_within_limit (fun l m => l.take m) simOne ["x"]
      [personY, personZ] (1 / 2) 1 2000 1 (by simp) reqSat_pair (by decide) (by decide)).2⟩

-- ------------------- C4 -------------------

/-- Fixture: the sampling oracle used by concrete evaluations (never
reached when the pool fits the limit). -/
def takeSample : List (List Nat) → Nat → List (List Nat) := fun l m => l.take m

theorem eps_pos : (0 : ℚ) < EPS := by norm_num [EPS]

/-- Both greedy scans over a two-candidate ranked list `[(a, pa),
(b, pb)]` when the two goodness deltas tie exactly above the commit
threshold, `b` has strictly higher resulting coverage and `a` has the
higher ranker probability: the `m3_recommend` scan keeps `a` (its only
tie-break is probability) while the `recommender_service` scan moves
to `b` (coverage-first tie-break). -/
theorem selectStep_pair_gen (evalT : List Person → ℚ × Metrics) (a b : Person)
    (pa pb base : ℚ)
    (heq : (evalT [a]).1 = (evalT [b]).1)
    (hgt : EPS < (evalT [a]).1 - base)
    (hcov : (evalT [a]).2.coverage < (evalT [b]).2.coverage)
    (hp : pb < pa) :
    (m3SelectStep evalT [(a, pa), (b, pb)] [] [] base).bestCand = some a ∧
    (serviceSelectStep evalT [(a, pa), (b, pb)] [] [] base).bestCand = some b := by
  have hstep1m : m3SelectScan evalT [] [] base ⟨none, -1, none, -1, 0⟩ (a, pa) =
      ⟨some a, (evalT [a]).1, some (evalT [a]).2, pa, (evalT [a]).1 - base⟩ := by
    unfold m3SelectScan
    simp only [List.not_mem_nil, if_false, List.nil_append, zero_add]
    rw [if_pos (Or.inl hgt)]
  have hstep2m : m3SelectScan evalT [] [] base
      ⟨some a, (evalT [a]).1, some (evalT [a]).2, pa, (evalT [a]).1 - base⟩ (b, pb) =
      ⟨some a, (evalT [a]).1, some (evalT [a]).2, pa, (evalT [a]).1 - base⟩ := by
    unfold m3SelectScan
    simp only [List.not_mem_nil, if_false, List.nil_append]
    rw [if_neg]
    push_neg
    constructor
    · rw [← heq]
      linarith [eps_pos]
    · intro _
      linarith
  have hstep1s : serviceSelectScan evalT [] [] base ⟨none, -1, none, -1, 0⟩ (a, pa) =
      ⟨some a, (evalT [a]).1, some (evalT [a]).2, pa, (evalT [a]).1 - base⟩ := by
    unfold serviceSelectScan
    simp only [List.not_mem_nil, if_false, List.nil_append, zero_add]
    rw [if_pos (Or.inl hgt)]
  have hstep2s : serviceSelectScan evalT [] [] base
      ⟨some a, (evalT [a]).1, some (evalT [a]).2, pa, (evalT [a]).1 - base⟩ (b, pb) =
      ⟨some b, (evalT [b]).1, some (evalT [b]).2, pb, (evalT [b]).1 - base⟩ := by
    unfold serviceSelectScan
    simp only [List.not_mem_nil, if_false, List.nil_append]
    rw [if_pos (Or.inr ⟨by rw [← heq]; simp [abs_of_nonneg, le_of_lt eps_pos],
      Or.inl hcov⟩)]
  constructor
  · show (List.foldl (m3SelectScan evalT [] [] base) ⟨none, -1, none, -1, 0⟩
      [(a, pa), (b, pb)]).bestCand = some a
    rw [List.foldl_cons, hstep1m, List.foldl_cons, hstep2m, List.foldl_nil]
  · show (List.foldl (serviceSelectScan evalT [] [] base) ⟨none, -1, none, -1, 0⟩
      [(a, pa), (b, pb)]).bestCand = some b
    rw [List.foldl_cons, hstep1s, List.foldl_cons, hstep2s, List.foldl_nil]

/-- C4 (amended): in `recommender_service` the greedy step breaks
delta ties (within 1e-9) by higher resulting coverage, then by higher
ranker probability; in `m3_recommend` the greedy step breaks delta
ties by higher ranker probability only, ignoring coverage — on a tied
pair the two builders select different candidates. -/
theorem greedy_tiebreak_amended (evalT : List Person → ℚ × Metrics) (a b : Person)
    (pa pb base : ℚ)
    (heq : (evalT [a]).1 = (evalT [b]).1)
    (hgt : EPS < (evalT [a]).1 - base)
    (hcov : (evalT [a]).2.coverage < (evalT [b]).2.coverage)
    (hp : pb < pa) :
    (m3SelectStep evalT [(a, pa), (b, pb)] [] [] base).bestCand = some a ∧
    (serviceSelectStep evalT [(a, pa), (b, pb)] [] [] base).bestCand = some b :=
  selectStep_pair_gen evalT a b pa pb base heq hgt hcov hp

/-- Fixture: a similarity oracle realising an exact goodness tie
between two singleton teams with different coverages. -/
def simC4 : String → String → ℚ := fun r sk =>
  if r = "r1" ∧ sk = "sa" then 1
  else if r = "r2" ∧ sk = "sa" then 0
  else if sk = "sb" then 1
  else 0

/-- Fixture: candidate with full willingness covering only "r1". -/
def aC4 : Person :=
  { pid := "a", name := "A", text := "", skills := ["sa"], W := 1,
    availability := "", homeLocation := "" }

/-- Fixture: candidate with willingness 0.8 covering both
requirements (weighted similarity 0.8 each). -/
def bC4 : Person :=
  { pid := "b", name := "B", text := "", skills := ["sb"], W := 4 / 5,
    availability := "", homeLocation := "" }

/-- Fixture: the `evaluate` closure at `tau = 1/2`, `k = 1` and
default lambdas over the tie-realising similarity oracle. -/
def evalC4 : List Person → ℚ × Metrics :=
  evaluateTeam takeSample simC4 ["r1", "r2"] (1 / 2) 1 1 1 (1 / 2)

theorem range_one_lit : List.range 1 = [0] := rfl

theorem evalC4_a : evalC4 [aC4] = (11 / 16, ⟨1 / 2, 0, 1 / 4, 0, 1, 1⟩) := by
  norm_num +decide [evalC4, evaluateTeam, teamMetrics, goodnessScore, similarityCoverage,
    memberPhrases, listMean, covAdjust, perReqBest, perMemberBest, redundancyMetric,
    coveredCounts, kRobustness, reqSat, kRobustnessSampled, kRobustnessPool,
    buildSubsetsGo, combos, clampK, removeIdx, listMinQ, sampleLimit, aC4, simC4,
    takeSample, max_def, min_def, Metrics.mk.injEq, Prod.ext_iff, range_one_lit,
    List.zip_cons_cons, List.zip_nil_right, List.zip_nil_left, List.filterMap_cons,
    List.filterMap_nil, List.filter_cons, List.filter_nil, List.mem_cons,
    List.mem_singleton, List.not_mem_nil]

theorem evalC4_b : evalC4 [bC4] = (11 / 16, ⟨3 / 5, 0, 1 / 4, 0, 4 / 5, 4 / 5⟩) := by
  norm_num +decide [evalC4, evaluateTeam, teamMetrics, goodnessScore, similarityCoverage,
    memberPhrases, listMean, covAdjust, perReqBest, perMemberBest, redundancyMetric,
    coveredCounts, kRobustness, reqSat, kRobustnessSampled, kRobustnessPool,
    buildSubsetsGo, combos, clampK, removeIdx, listMinQ, sampleLimit, bC4, simC4,
    takeSample, max_def, min_def, Metrics.mk.injEq, Prod.ext_iff, range_one_lit,
    List.zip_cons_cons, List.zip_nil_right, List.zip_nil_left, List.filterMap_cons,
    List.filterMap_nil, List.filter_cons, List.filter_nil, List.mem_cons,
    List.mem_singleton, List.not_mem_nil]

theorem evalC4_base : (evalC4 []).1 = 1 / 2 := by
  norm_num +decide [evalC4, evaluateTeam, teamMetrics, goodnessScore, similarityCoverage,
    memberPhrases, listMean, covAdjust, redundancyMetric, kRobustness, listMinQ,
    max_def, min_def]

/-- C4 counterexample: at an exact goodness-delta tie the
`m3_recommend` greedy scan (which the claim also covers) selects the
higher-probability candidate `a` even though `b` has strictly higher
resulting coverage, contradicting the coverage-first tie-break; the
`recommender_service` scan selects `b`. -/
theorem greedy_tiebreak_cex :
    (m3SelectStep evalC4 [(aC4, 9 / 10), (bC4, 1 / 10)] [] [] (evalC4 []).1).bestCand
      = some aC4 ∧
    (serviceSelectStep evalC4 [(aC4, 9 / 10), (bC4, 1 / 10)] [] [] (evalC4 []).1).bestCand
      = some bC4 ∧
    aC4 ≠ bC4 ∧
    (evalC4 [aC4]).1 = (evalC4 [bC4]).1 ∧
    (evalC4 [aC4]).2.coverage < (evalC4 [bC4]).2.coverage :=
  have heq : (evalC4 [aC4]).1 = (evalC4 [bC4]).1 := by rw [evalC4_a, evalC4_b]
  have hgt : EPS < (evalC4 [aC4]).1 - (evalC4 []).1 := by
    rw [evalC4_a, evalC4_base]; norm_num [EPS]
  have hcov : (evalC4 [aC4]).2.coverage < (evalC4 [bC4]).2.coverage := by
    rw [evalC4_a, evalC4_b]; norm_num
  have hpair := selectStep_pair_gen evalC4 aC4 bC4 (9 / 10) (1 / 10) (evalC4 []).1
    heq hgt hcov (by norm_num)
  ⟨hpair.1, hpair.2, by decide, heq, hcov⟩

/-- Witness for `greedy_tiebreak_amended` at the concrete tie
fixture. -/
theorem greedy_tiebreak_amended_witness :
    (m3SelectStep evalC4 [(aC4, 9 / 10), (bC4, 1 / 10)] [] [] (evalC4 []).1).bestCand
      = some aC4 ∧
    (serviceSelectStep evalC4 [(aC4, 9 / 10), (bC4, 1 / 10)] [] [] (evalC4 []).1).bestCand
      = some bC4 :=
  greedy_tiebreak_amended evalC4 aC4 bC4 (9 / 10) (1 / 10) (evalC4 []).1
    (by rw [evalC4_a, evalC4_b])
    (by rw [evalC4_a, evalC4_base]; norm_num [EPS])
    (by rw [evalC4_a, evalC4_b]; norm_num)
    (by norm_num)

-- ------------------- C5 -------------------

/-- Fixture: four low-willingness members whose skills pairwise cover
six requirements with weighted similarity exactly at the threshold. -/
def memA : Person :=
  { pid := "a", name := "Na", text := "", skills := ["ka"], W := 1 / 10,
    availability := "", homeLocation := "" }

def memB : Person :=
  { pid := "b", name := "Nb", text := "", skills := ["kb"], W := 1 / 10,
    availability := "", homeLocation := "" }

def memC : Person :=
  { pid := "c", name := "Nc", text := "", skills := ["kc"], W := 1 / 10,
    availability := "", homeLocation := "" }

def memD : Person :=
  { pid := "d", name := "Nd", text := "", skills := ["kd"], W := 1 / 10,
    availability := "", homeLocation := "" }

/-- Fixture: an unrelated fully-willing responder. -/
def eC5 : Person :=
  { pid := "e", name := "Ne", text := "", skills := ["ke"], W := 1,
    availability := "", homeLocation := "" }

/-- Fixture: one requirement per pair of the four members. -/
def reqsC5 : List String := ["rab", "rac", "rad", "rbc", "rbd", "rcd"]

/-- Fixture: each requirement is rated 1/2 exactly by its two
covering members' skills and 0 by everything else. -/
def simC5 : String → String → ℚ := fun r sk =>
  if (r = "rab" ∧ (sk = "ka" ∨ sk = "kb")) ∨
     (r = "rac" ∧ (sk = "ka" ∨ sk = "kc")) ∨
     (r = "rad" ∧ (sk = "ka" ∨ sk = "kd")) ∨
     (r = "rbc" ∧ (sk = "kb" ∨ sk = "kc")) ∨
     (r = "rbd" ∧ (sk = "kb" ∨ sk = "kd")) ∨
     (r = "rcd" ∧ (sk = "kc" ∨ sk = "kd")) then 1 / 2 else 0

def t2membersC5 : List Person := [memA, memB, memC, memD]

/-- Fixture: the `evaluate` closure at `tau = 1/20`, `k = 3` and
default lambdas over the pair-coverage similarity oracle. -/
def evalC5 : List Person → ℚ × Metrics :=
  evaluateTeam takeSample simC5 reqsC5 (1 / 20) 3 1 1 (1 / 2)

theorem range_four_lit : List.range 4 = [0, 1, 2, 3] := rfl

set_option maxHeartbeats 2000000 in
theorem evalC5_t2 :
    evalC5 t2membersC5 = (281 / 1680, ⟨0, 1, 2 / 3, 2 / 7, 1 / 10, 1 / 10⟩) := by
  norm_num +decide [evalC5, evaluateTeam, teamMetrics, goodnessScore, similarityCoverage,
    memberPhrases, listMean, covAdjust, perReqBest, perMemberBest, redundancyMetric,
    coveredCounts, kRobustness, reqSat, kRobustnessSampled, kRobustnessPool,
    buildSubsetsGo, combos, clampK, removeIdx, listMinQ, sampleLimit,
    memA, memB, memC, memD, simC5, t2membersC5, reqsC5,
    takeSample, max_def, min_def, Metrics.mk.injEq, Prod.ext_iff, range_four_lit,
    List.zip_cons_cons, List.zip_nil_right, List.zip_nil_left, List.filterMap_cons,
    List.filterMap_nil, List.filter_cons, List.filter_nil, List.mem_cons,
    List.mem_singleton, List.not_mem_nil]

/-- Fixture: the two pre-reconciliation team records built by
`add_rec` for the crafted teams (disjoint member sets; the second has
rounded goodness 0.1673 < 0.2). -/
def t1C5 : TeamRec := mkRec evalC5 [eC5]

def t2C5 : TeamRec := mkRec evalC5 t2membersC5

theorem t1C5_members : t1C5.members = [eC5] := rfl

theorem t2C5_members : t2C5.members = t2membersC5 := rfl

theorem t2C5_goodness : t2C5.goodness = 1673 / 10000 := by
  show pyRound (evalC5 t2membersC5).1 4 = 1673 / 10000
  rw [evalC5_t2]
  norm_num [pyRound, halfEvenRound]

theorem stepT2C5 : m3ReconcileAux evalC5 [t2C5] ["e"] true = [] := by
  have hkeep2 : keepMembers ["e"] t2C5.members = t2membersC5 := by
    simp +decide [keepMembers, t2C5_members, t2membersC5, memA, memB, memC, memD]
  unfold m3ReconcileAux
  rw [hkeep2]
  rw [if_neg (by simp [t2membersC5] : ¬ (t2membersC5 : List Person) = [])]
  rw [if_neg (by simp [t2C5_members, t2membersC5] :
    ¬ (t2membersC5 : List Person).length < t2C5.members.length)]
  rw [if_pos ⟨rfl, by rw [t2C5_goodness]; norm_num⟩]
  rfl

theorem m3Reconcile_runC5 :
    m3Reconcile evalC5 [t1C5, t2C5] = [{ t1C5 with rank := 1 }] := by
  have hkeep1 : keepMembers [] t1C5.members = [eC5] := by
    simp +decide [keepMembers, t1C5_members]
  unfold m3Reconcile m3ReconcileAux
  rw [hkeep1]
  rw [if_neg (by simp : ¬ ([eC5] : List Person) = [])]
  rw [if_neg (by simp [t1C5_members] : ¬ ([eC5] : List Person).length < t1C5.members.length)]
  rw [if_neg (by simp : ¬ ((false : Bool) = true ∧ t1C5.goodness < 1 / 5))]
  have hasg : ([] : List String) ++ List.map (fun m => m.pid) [eC5] = ["e"] := rfl
  rw [hasg, stepT2C5]
  simp [addRanks, addRanksFrom]

/-- C5 counterexample: the `m3_recommend` reconciliation pass drops
the second bucket-selected team even though none of its members was
claimed by the earlier team — because its (realistically computed and
rounded) goodness 0.1673 is below the 0.2 threshold — contradicting
"dropped entirely if and only if all of its members were already
claimed". -/
theorem m3_goodness_drop_cex :
    (m3Reconcile evalC5 [t1C5, t2C5]).map (fun t => t.teamIds) = [t1C5.teamIds] ∧
    t2C5.members ≠ [] ∧
    t2C5.members.all
      (fun m => decide (¬ m.pid ∈ t1C5.members.map (fun x => x.pid))) = true ∧
    t2C5.goodness < 1 / 5 := by
  refine ⟨by rw [m3Reconcile_runC5]; rfl, by simp [t2C5_members, t2membersC5], ?_,
    by rw [t2C5_goodness]; norm_num⟩
  simp +decide [t2C5_members, t2membersC5, t1C5_members, memA, memB, memC, memD, eC5]

/-- C5 (amended): in `recommender_service._enforce_unique_members` a
team is dropped exactly when every member was already claimed, and a
team that loses only some members is kept with members, ids, names,
size and metrics recomputed; the `m3_recommend` pass behaves the same
except that a team processed after at least one kept team is also
dropped whenever its (possibly recomputed) goodness is below 0.2, even
if it retains unclaimed members. -/
theorem reconciliation_drop_characterization
    (evalT : List Person → ℚ × Metrics) (t : TeamRec) (ts : List TeamRec)
    (asg : List String) (started : Bool) :
    (keepMembers asg t.members = [] →
      enforceUniqueAux evalT (t :: ts) asg = enforceUniqueAux evalT ts asg ∧
      m3ReconcileAux evalT (t :: ts) asg started = m3ReconcileAux evalT ts asg started) ∧
    (keepMembers asg t.members ≠ [] →
      enforceUniqueAux evalT (t :: ts) asg =
        (if (keepMembers asg t.members).length < t.members.length
         then recomputeRec evalT t (keepMembers asg t.members)
         else { t with members := keepMembers asg t.members }) ::
          enforceUniqueAux evalT ts
            (asg ++ (keepMembers asg t.members).map (fun m => m.pid))) ∧
    (∀ r2, r2 = (if (keepMembers asg t.members).length < t.members.length
          then recomputeRec evalT t (keepMembers asg t.members) else t) →
      keepMembers asg t.members ≠ [] →
      (¬ (started = true ∧ r2.goodness < 1 / 5) →
        m3ReconcileAux evalT (t :: ts) asg started =
          r2 :: m3ReconcileAux evalT ts
            (asg ++ (keepMembers asg t.members).map (fun m => m.pid)) true) ∧
      ((started = true ∧ r2.goodness < 1 / 5) →
        m3ReconcileAux evalT (t :: ts) asg started = m3ReconcileAux evalT ts asg started)) := by
  refine ⟨?_, ?_, ?_⟩
  · intro h
    constructor
    · conv_lhs => unfold enforceUniqueAux
      rw [if_pos h]
    · conv_lhs => unfold m3ReconcileAux
      rw [if_pos h]
  · intro h
    conv_lhs => unfold enforceUniqueAux
    rw [if_neg h]
  · intro r2 hr2 h
    constructor
    · intro hng
      conv_lhs => unfold m3ReconcileAux
      rw [if_neg h, ← hr2, if_neg hng]
    · intro hg
      conv_lhs => unfold m3ReconcileAux
      rw [if_neg h, ← hr2, if_pos hg]

/-- Witness for `reconciliation_drop_characterization`: the service
pass keeps the crafted four-member team after losing member "a",
recomputing its record for the shrunk member list. -/
theorem reconciliation_drop_characterization_witness :
    keepMembers ["a"] t2C5.members ≠ [] ∧
    enforceUniqueAux evalC5 [t2C5] ["a"] =
      (if (keepMembers ["a"] t2C5.members).length < t2C5.members.length
       then recomputeRec evalC5 t2C5 (keepMembers ["a"] t2C5.members)
       else { t2C5 with members := keepMembers ["a"] t2C5.members }) ::
        enforceUniqueAux evalC5 []
          (["a"] ++ (keepMembers ["a"] t2C5.members).map (fun m => m.pid)) :=
  have hne : keepMembers ["a"] t2C5.members ≠ [] := by
    simp +decide [keepMembers, t2C5_members, t2membersC5, memA, memB, memC, memD]
  ⟨hne, (reconciliation_drop_characterization evalC5 t2C5 [] ["a"] false).2.1 hne⟩

-- ------------------- C1 -------------------

/-- The responder ids carried by a team record's member list. -/
def pidsOf (t : TeamRec) : List String := t.members.map (fun m => m.pid)

/-- No responder id appears in the member lists of two different
teams of the list. -/
def TeamsPidDisjoint : List TeamRec → Prop
  | [] => True
  | t :: ts => (∀ p ∈ pidsOf t, ∀ t2 ∈ ts, ¬ p ∈ pidsOf t2) ∧ TeamsPidDisjoint ts

theorem enforceUniqueAux_nil (evalT : List Person → ℚ × Metrics) (asg : List String) :
    enforceUniqueAux evalT [] asg = [] := rfl

theorem m3ReconcileAux_nil (evalT : List Person → ℚ × Metrics) (asg : List String)
    (started : Bool) : m3ReconcileAux evalT [] asg started = [] := rfl

theorem enforceUniqueAux_cons_empty (evalT : List Person → ℚ × Metrics) (t : TeamRec)
    (ts : List TeamRec) (asg : List String) (h : keepMembers asg t.members = []) :
    enforceUniqueAux evalT (t :: ts) asg = enforceUniqueAux evalT ts asg := by
  conv_lhs => unfold enforceUniqueAux
  rw [if_pos h]

theorem enforceUniqueAux_cons_keep (evalT : List Person → ℚ × Metrics) (t : TeamRec)
    (ts : List TeamRec) (asg : List String) (h : keepMembers asg t.members ≠ []) :
    enforceUniqueAux evalT (t :: ts) asg =
      (if (keepMembers asg t.members).length < t.members.length
       then recomputeRec evalT t (keepMembers asg t.members)
       else { t with members := keepMembers asg t.members }) ::
        enforceUniqueAux evalT ts
          (asg ++ (keepMembers asg t.members).map (fun m => m.pid)) := by
  conv_lhs => unfold enforceUniqueAux
  rw [if_neg h]

theorem m3ReconcileAux_cons_empty (evalT : List Person → ℚ × Metrics) (t : TeamRec)
    (ts : List TeamRec) (asg : List String) (started : Bool)
    (h : keepMembers asg t.members = []) :
    m3ReconcileAux evalT (t :: ts) asg started = m3ReconcileAux evalT ts asg started := by
  conv_lhs => unfold m3ReconcileAux
  rw [if_pos h]

theorem m3ReconcileAux_cons_drop (evalT : List Person → ℚ × Metrics) (t : TeamRec)
    (ts : List TeamRec) (asg : List String) (started : Bool)
    (h : keepMembers asg t.members ≠ [])
    (hg : started = true ∧
      (if (keepMembers asg t.members).length < t.members.length
       then recomputeRec evalT t (keepMembers asg t.members) else t).goodness < 1 / 5) :
    m3ReconcileAux evalT (t :: ts) asg started = m3ReconcileAux evalT ts asg started := by
  conv_lhs => unfold m3ReconcileAux
  rw [if_neg h, if_pos hg]

theorem m3ReconcileAux_cons_keep (evalT : List Person → ℚ × Metrics) (t : TeamRec)
    (ts : List TeamRec) (asg : List String) (started : Bool)
    (h : keepMembers asg t.members ≠ [])
    (hg : ¬ (started = true ∧
      (if (keepMembers asg t.members).length < t.members.length
       then recomputeRec evalT t (keepMembers asg t.members) else t).goodness < 1 / 5)) :
    m3ReconcileAux evalT (t :: ts) asg started =
      (if (keepMembers asg t.members).length < t.members.length
       then recomputeRec evalT t (keepMembers asg t.members) else t) ::
        m3ReconcileAux evalT ts
          (asg ++ (keepMembers asg t.members).map (fun m => m.pid)) true := by
  conv_lhs => unfold m3ReconcileAux
  rw [if_neg h, if_neg hg]

theorem recomputeRec_members (evalT : List Person → ℚ × Metrics) (r : TeamRec)
    (keep : List Person) : (recomputeRec evalT r keep).members = keep := rfl

theorem keepMembers_eq_of_not_shrunk (asg : List String) (members : List Person)
    (h : ¬ (keepMembers asg members).length < members.length) :
    keepMembers asg members = members := by
  refine (List.filter_sublist members).eq_of_length ?_
  exact le_antisymm (List.Sublist.length_le (List.filter_sublist members)) (not_lt.mp h)

theorem pidsOf_enforce_head (evalT : List Person → ℚ × Metrics) (t : TeamRec)
    (asg : List String) :
    pidsOf (if (keepMembers asg t.members).length < t.members.length
      then recomputeRec evalT t (keepMembers asg t.members)
      else { t with members := keepMembers asg t.members }) =
      (keepMembers asg t.members).map (fun m => m.pid) := by
  split <;> rfl

theorem pidsOf_m3_head (evalT : List Person → ℚ × Metrics) (t : TeamRec)
    (asg : List String) :
    pidsOf (if (keepMembers asg t.members).length < t.members.length
      then recomputeRec evalT t (keepMembers asg t.members) else t) =
      (keepMembers asg t.members).map (fun m => m.pid) := by
  split
  · rfl
  · rename_i h
    unfold pidsOf
    rw [keepMembers_eq_of_not_shrunk asg t.members h]

theorem mem_keepMembers_not_assigned (asg : List String) (members : List Person)
    (m : Person) (hm : m ∈ keepMembers asg members) : ¬ m.pid ∈ asg := by
  have := List.of_mem_filter hm
  rwa [decide_eq_true_eq] at this

theorem enforceUniqueAux_avoids (evalT : List Person → ℚ × Metrics) :
    ∀ (ts : List TeamRec) (asg : List String),
      ∀ t2 ∈ enforceUniqueAux evalT ts asg, ∀ p ∈ pidsOf t2, ¬ p ∈ asg := by
  intro ts
  induction ts with
  | nil => intro asg t2 h; rw [enforceUniqueAux_nil] at h; exact absurd h (List.not_mem_nil t2)
  | cons t ts ih =>
      intro asg t2 ht2 p hp
      by_cases h : keepMembers asg t.members = []
      · rw [enforceUniqueAux_cons_empty evalT t ts asg h] at ht2
        exact ih asg t2 ht2 p hp
      · rw [enforceUniqueAux_cons_keep evalT t ts asg h] at ht2
        rcases List.mem_cons.mp ht2 with heq | htail
        · rw [heq, pidsOf_enforce_head] at hp
          obtain ⟨m, hm, hpid⟩ := List.mem_map.mp hp
          rw [← hpid]
          exact mem_keepMembers_not_assigned asg t.members m hm
        · intro hpa
          exact ih _ t2 htail p hp (List.mem_append_left _ hpa)

theorem m3ReconcileAux_avoids (evalT : List Person → ℚ × Metrics) :
    ∀ (ts : List TeamRec) (asg : List String) (started : Bool),
      ∀ t2 ∈ m3ReconcileAux evalT ts asg started, ∀ p ∈ pidsOf t2, ¬ p ∈ asg := by
  intro ts
  induction ts with
  | nil =>
      intro asg started t2 h
      rw [m3ReconcileAux_nil] at h
      exact absurd h (List.not_mem_nil t2)
  | cons t ts ih =>
      intro asg started t2 ht2 p hp
      by_cases h : keepMembers asg t.members = []
      · rw [m3ReconcileAux_cons_empty evalT t ts asg started h] at ht2
        exact ih asg started t2 ht2 p hp
      · by_cases hg : started = true ∧
            (if (keepMembers asg t.members).length < t.members.length
             then recomputeRec evalT t (keepMembers asg t.members) else t).goodness < 1 / 5
        · rw [m3ReconcileAux_cons_drop evalT t ts asg started h hg] at ht2
          exact ih asg started t2 ht2 p hp
        · rw [m3ReconcileAux_cons_keep evalT t ts asg started h hg] at ht2
          rcases List.mem_cons.mp ht2 with heq | htail
          · rw [heq, pidsOf_m3_head] at hp
            obtain ⟨m, hm, hpid⟩ := List.mem_map.mp hp
            rw [← hpid]
            exact mem_keepMembers_not_assigned asg t.members m hm
          · intro hpa
            exact ih _ true t2 htail p hp (List.mem_append_left _ hpa)

theorem enforceUniqueAux_disjoint (evalT : List Person → ℚ × Metrics) :
    ∀ (ts : List TeamRec) (asg : List String),
      TeamsPidDisjoint (enforceUniqueAux evalT ts asg) := by
  intro ts
  induction ts with
  | nil => intro asg; rw [enforceUniqueAux_nil]; trivial
  | cons t ts ih =>
      intro asg
      by_cases h : keepMembers asg t.members = []
      · rw [enforceUniqueAux_cons_empty evalT t ts asg h]
        exact ih asg
      · rw [enforceUniqueAux_cons_keep evalT t ts asg h]
        refine ⟨?_, ih _⟩
        intro p hp t2 ht2 hpt2
        have havoid := enforceUniqueAux_avoids evalT ts
          (asg ++ (keepMembers asg t.members).map (fun m => m.pid)) t2 ht2 p hpt2
        apply havoid
        apply List.mem_append_right
        rw [pidsOf_enforce_head] at hp
        exact hp

theorem m3ReconcileAux_disjoint (evalT : List Person → ℚ × Metrics) :
    ∀ (ts : List TeamRec) (asg : List String) (started : Bool),
      TeamsPidDisjoint (m3ReconcileAux evalT ts asg started) := by
  intro ts
  induction ts with
  | nil => intro asg started; rw [m3ReconcileAux_nil]; trivial
  | cons t ts ih =>
      intro asg started
      by_cases h : keepMembers asg t.members = []
      · rw [m3ReconcileAux_cons_empty evalT t ts asg started h]
        exact ih asg started
      · by_cases hg : started = true ∧
            (if (keepMembers asg t.members).length < t.members.length
             then recomputeRec evalT t (keepMembers asg t.members) else t).goodness < 1 / 5
        · rw [m3ReconcileAux_cons_drop evalT t ts asg started h hg]
          exact ih asg started
        · rw [m3ReconcileAux_cons_keep evalT t ts asg started h hg]
          refine ⟨?_, ih _ true⟩
          intro p hp t2 ht2 hpt2
          have havoid := m3ReconcileAux_avoids evalT ts
            (asg ++ (keepMembers asg t.members).map (fun m => m.pid)) true t2 ht2 p hpt2
          apply havoid
          apply List.mem_append_right
          rw [pidsOf_m3_head] at hp
          exact hp

theorem mem_addRanksFrom : ∀ (i : Nat) (l : List TeamRec) (t2 : TeamRec),
    t2 ∈ addRanksFrom i l → ∃ t0 ∈ l, pidsOf t2 = pidsOf t0 := by
  intro i l
  induction l generalizing i with
  | nil => intro t2 h; exact absurd h (List.not_mem_nil t2)
  | cons t ts ih =>
      intro t2 h
      rcases List.mem_cons.mp h with heq | htail
      · exact ⟨t, List.mem_cons_self t ts, by rw [heq]; rfl⟩
      · obtain ⟨t0, ht0, hpids⟩ := ih (i + 1) t2 htail
        exact ⟨t0, List.mem_cons_of_mem t ht0, hpids⟩

theorem addRanksFrom_disjoint : ∀ (i : Nat) (l : List TeamRec),
    TeamsPidDisjoint l → TeamsPidDisjoint (addRanksFrom i l) := by
  intro i l
  induction l generalizing i with
  | nil => intro _; trivial
  | cons t ts ih =>
      intro hd
      refine ⟨?_, ih (i + 1) hd.2⟩
      intro p hp t2 ht2 hpt2
      obtain ⟨t0, ht0, hpids⟩ := mem_addRanksFrom (i + 1) ts t2 ht2
      rw [hpids] at hpt2
      exact hd.1 p hp t0 ht0 hpt2

/-- C1: after either global uniqueness reconciliation pass
(`_enforce_unique_members` in `recommender_service` and the
reconciliation loop of `run_recommender`), no responder id appears in
the member list of more than one returned team. -/
theorem reconciliation_global_uniqueness (evalT : List Person → ℚ × Metrics)
    (teams : List TeamRec) :
    TeamsPidDisjoint (enforceUnique evalT teams) ∧
    TeamsPidDisjoint (m3Reconcile evalT teams) :=
  ⟨enforceUniqueAux_disjoint evalT teams [],
    addRanksFrom_disjoint 0 (m3ReconcileAux evalT teams [] false)
      (m3ReconcileAux_disjoint evalT teams [] false)⟩

-- ------------------- C9 helper lemmas -------------------

theorem filteredPeople_no_overlap (schedule : String → ScheduleInfo) (task : ℚ × ℚ)
    (taskWeekHours : List (WeekKey × ℚ)) (quota pen : ℚ) (people : List Person) :
    ∀ p ∈ filteredPeople schedule task taskWeekHours quota pen people,
      intervalsOverlapB (schedule p.pid).intervals task = false := by
  intro p hp
  obtain ⟨q0, _, hmap⟩ := List.mem_filterMap.mp hp
  by_cases hcond : (!(schedule q0.pid).intervals.isEmpty &&
      intervalsOverlapB (schedule q0.pid).intervals task) = true
  · rw [if_pos hcond] at hmap
    exact absurd hmap (by simp)
  · rw [if_neg hcond] at hmap
    have hpid : p.pid = q0.pid := by
      rw [← Option.some_inj.mp hmap]
      rfl
    rw [hpid]
    rcases Bool.and_eq_false_iff.mp (Bool.eq_false_iff.mpr hcond) with hemp | hov
    · have : (schedule q0.pid).intervals = [] :=
        List.isEmpty_iff.mp (by simpa using hemp)
      rw [this]
      rfl
    · exact hov

theorem mem_insertDescBy (gt : α → α → Bool) (x y : α) :
    ∀ l : List α, y ∈ insertDescBy gt x l → y = x ∨ y ∈ l := by
  intro l
  induction l with
  | nil => intro h; simpa [insertDescBy] using h
  | cons z zs ih =>
      intro h
      unfold insertDescBy at h
      split at h
      · rcases List.mem_cons.mp h with h1 | h1
        · exact Or.inl h1
        · exact Or.inr h1
      · rcases List.mem_cons.mp h with h1 | h1
        · exact Or.inr (h1 ▸ List.mem_cons_self z zs)
        · rcases ih h1 with h2 | h2
          · exact Or.inl h2
          · exact Or.inr (List.mem_cons_of_mem z h2)

theorem mem_sortDescBy_aux (gt : α → α → Bool) :
    ∀ (l : List α) (acc : List α) (y : α),
      y ∈ l.foldl (fun a r => insertDescBy gt r a) acc → y ∈ acc ∨ y ∈ l := by
  intro l
  induction l with
  | nil => intro acc y h; exact Or.inl h
  | cons z zs ih =>
      intro acc y h
      rw [List.foldl_cons] at h
      rcases ih (insertDescBy gt z acc) y h with h1 | h1
      · rcases mem_insertDescBy gt z y acc h1 with h2 | h2
        · exact Or.inr (h2 ▸ List.mem_cons_self z zs)
        · exact Or.inl h2
      · exact Or.inr (List.mem_cons_of_mem z h1)

theorem mem_sortDescBy (gt : α → α → Bool) (l : List α) (y : α)
    (h : y ∈ sortDescBy gt l) : y ∈ l := by
  rcases mem_sortDescBy_aux gt l [] y h with h1 | h1
  · exact absurd h1 (List.not_mem_nil y)
  · exact h1

theorem rankPerson_pid (textSim : Person → ℚ) (clf : List ℚ → ℚ) (sev : Nat)
    (propLoc : String) (distLookup : String → String → Option ℚ)
    (dScale dDecay : ℚ) (expQ : ℚ → ℚ) (p : Person) :
    (rankPerson textSim clf sev propLoc distLookup dScale dDecay expQ p).1.pid = p.pid := rfl

theorem rankStage_pid (textSim : Person → ℚ) (clf : List ℚ → ℚ) (sev : Nat)
    (propLoc : String) (distLookup : String → String → Option ℚ)
    (dScale dDecay : ℚ) (expQ : ℚ → ℚ) (people : List Person) :
    ∀ pr ∈ rankStage textSim clf sev propLoc distLookup dScale dDecay expQ people,
      ∃ q ∈ people, pr.1.pid = q.pid := by
  intro pr hpr
  have hmem := mem_sortDescBy _ _ _ hpr
  obtain ⟨q, hq, heq⟩ := List.mem_map.mp hmem
  exact ⟨q, hq, by rw [← heq]; rfl⟩

theorem m3SelectScan_cases (evalT : List Person → ℚ × Metrics) (team : List Person)
    (teamIds : List String) (baseScore : ℚ) (st : SelState) (pp : Person × ℚ) :
    m3SelectScan evalT team teamIds baseScore st pp = st ∨
    (m3SelectScan evalT team teamIds baseScore st pp).bestCand = some pp.1 := by
  unfold m3SelectScan
  split
  · exact Or.inl rfl
  · split
    · exact Or.inr rfl
    · exact Or.inl rfl

theorem m3SelectStep_foldl_mem (evalT : List Person → ℚ × Metrics)
    (team : List Person) (teamIds : List String) (baseScore : ℚ) (c : Person) :
    ∀ (ranked : List (Person × ℚ)) (st : SelState),
      (ranked.foldl (m3SelectScan evalT team teamIds baseScore) st).bestCand = some c →
      st.bestCand = some c ∨ ∃ pr ∈ ranked, pr.1 = c := by
  intro ranked
  induction ranked with
  | nil => intro st h; exact Or.inl h
  | cons pp pps ih =>
      intro st h
      rw [List.foldl_cons] at h
      rcases ih (m3SelectScan evalT team teamIds baseScore st pp) h with h1 | h1
      · rcases m3SelectScan_cases evalT team teamIds baseScore st pp with h2 | h2
        · exact Or.inl (h2 ▸ h1)
        · rw [h1] at h2
          exact Or.inr ⟨pp, List.mem_cons_self pp pps, Option.some_inj.mp h2.symm⟩
      · obtain ⟨pr, hpr, heq⟩ := h1
        exact Or.inr ⟨pr, List.mem_cons_of_mem pp hpr, heq⟩

theorem m3SelectStep_mem (evalT : List Person → ℚ × Metrics)
    (ranked : List (Person × ℚ)) (team : List Person) (teamIds : List String)
    (baseScore : ℚ) (c : Person)
    (h : (m3SelectStep evalT ranked team teamIds baseScore).bestCand = some c) :
    ∃ pr ∈ ranked, pr.1 = c := by
  rcases m3SelectStep_foldl_mem evalT team teamIds baseScore c ranked
    ⟨none, -1, none, -1, 0⟩ h with h1 | h1
  · exact absurd h1 (by simp)
  · exact h1

theorem m3BuildTeam_mem (evalT : List Person → ℚ × Metrics)
    (ranked : List (Person × ℚ)) :
    ∀ (fuel : Nat) (team : List Person) (teamIds : List String) (score : ℚ)
      (x : Person), x ∈ m3BuildTeam evalT ranked fuel team teamIds score →
      x ∈ team ∨ ∃ pr ∈ ranked, pr.1 = x := by
  intro fuel
  induction fuel with
  | zero => intro team ti score x hx; exact Or.inl hx
  | succ f ih =>
      intro team ti score x hx
      unfold m3BuildTeam at hx
      split at hx
      · rename_i c cm hbc hbm
        have hc := m3SelectStep_mem evalT ranked team ti score c hbc
        split at hx
        · exact Or.inl hx
        · split at hx
          · rcases List.mem_append.mp hx with h1 | h1
            · exact Or.inl h1
            · exact Or.inr (List.mem_singleton.mp h1 ▸ hc)
          · rcases ih (team ++ [c]) (ti ++ [c.pid]) _ x hx with h1 | h1
            · rcases List.mem_append.mp h1 with h2 | h2
              · exact Or.inl h2
              · exact Or.inr (List.mem_singleton.mp h2 ▸ hc)
            · exact Or.inr h1
      · exact Or.inl hx

theorem mkRec_members (evalT : List Person → ℚ × Metrics) (tlist : List Person) :
    (mkRec evalT tlist).members = tlist := rfl

theorem variantRecs_members (evalT : List Person → ℚ × Metrics)
    (ranked : List (Person × ℚ)) (team : List Person) (topkSwap : Nat)
    (r : TeamRec) (m : Person) (hr : r ∈ variantRecs evalT ranked team topkSwap)
    (hm : m ∈ r.members) : m ∈ team ∨ ∃ pr ∈ ranked, pr.1 = m := by
  unfold variantRecs at hr
  obtain ⟨pp, hpp, hin⟩ := List.mem_flatMap.mp hr
  have hppr : pp ∈ ranked := List.take_subset _ _ hpp
  split at hin
  · exact absurd hin (List.not_mem_nil r)
  · obtain ⟨i, _, heq⟩ := List.mem_map.mp hin
    rw [← heq, mkRec_members] at hm
    rcases List.mem_or_eq_of_mem_set hm with h1 | h1
    · exact Or.inl h1
    · exact Or.inr ⟨pp, hppr, h1.symm⟩

theorem upsertRec_values (acc : List ((String × String) × TeamRec)) (r : TeamRec)
    (kv : (String × String) × TeamRec) (h : kv ∈ upsertRec acc r) :
    kv.2 = r ∨ ∃ kv0 ∈ acc, kv.2 = kv0.2 := by
  unfold upsertRec at h
  split at h
  · obtain ⟨kv0, hkv0, heq⟩ := List.mem_map.mp h
    by_cases hk : kv0.1 = (r.teamIds, r.teamNames)
    · rw [if_pos hk] at heq
      exact Or.inl (by rw [← heq])
    · rw [if_neg hk] at heq
      exact Or.inr ⟨kv0, hkv0, by rw [← heq]⟩
  · rcases List.mem_append.mp h with h1 | h1
    · exact Or.inr ⟨kv, h1, rfl⟩
    · exact Or.inl (by rw [List.mem_singleton.mp h1])

theorem dedup_foldl_mem :
    ∀ (recs : List TeamRec) (acc : List ((String × String) × TeamRec))
      (kv : (String × String) × TeamRec), kv ∈ recs.foldl upsertRec acc →
      (∃ kv0 ∈ acc, kv.2 = kv0.2) ∨ kv.2 ∈ recs := by
  intro recs
  induction recs with
  | nil => intro acc kv h; exact Or.inl ⟨kv, h, rfl⟩
  | cons r rs ih =>
      intro acc kv h
      rw [List.foldl_cons] at h
      rcases ih (upsertRec acc r) kv h with h1 | h1
      · obtain ⟨kv0, hkv0, heq⟩ := h1
        rcases upsertRec_values acc r kv0 hkv0 with h2 | h2
        · exact Or.inr (by rw [heq, h2]; exact List.mem_cons_self r rs)
        · obtain ⟨kv1, hkv1, heq1⟩ := h2
          exact Or.inl ⟨kv1, hkv1, by rw [heq, heq1]⟩
      · exact Or.inr (List.mem_cons_of_mem r h1)

theorem mem_dedupRecs (recs : List TeamRec) (x : TeamRec)
    (h : x ∈ dedupRecs recs) : x ∈ recs := by
  unfold dedupRecs at h
  obtain ⟨kv, hkv, heq⟩ := List.mem_map.mp h
  rcases dedup_foldl_mem recs [] kv hkv with h1 | h1
  · obtain ⟨kv0, hkv0, _⟩ := h1
    exact absurd hkv0 (List.not_mem_nil kv0)
  · exact heq ▸ h1

theorem bucketAssign_inv (buckets : List Bucket) (gr : List (String × List TeamRec))
    (team : TeamRec) (P : TeamRec → Prop)
    (hgr : ∀ kv ∈ gr, ∀ x ∈ kv.2, P x) (ht : P team) :
    ∀ kv ∈ bucketAssign buckets gr team, ∀ x ∈ kv.2, P x := by
  unfold bucketAssign
  split
  · exact hgr
  · split
    · intro kv hkv x hx
      obtain ⟨kv0, hkv0, heq⟩ := List.mem_map.mp hkv
      rename_i b _ _
      by_cases hk : kv0.1 = b.label
      · rw [if_pos hk] at heq
        rw [← heq] at hx
        rcases List.mem_append.mp hx with h1 | h1
        · exact hgr kv0 hkv0 x h1
        · exact List.mem_singleton.mp h1 ▸ ht
      · rw [if_neg hk] at heq
        exact hgr kv0 hkv0 x (heq ▸ hx)
    · exact hgr

theorem foldl_bucketAssign_inv (buckets : List Bucket) (P : TeamRec → Prop) :
    ∀ (ts : List TeamRec) (gr : List (String × List TeamRec)),
      (∀ kv ∈ gr, ∀ x ∈ kv.2, P x) → (∀ x ∈ ts, P x) →
      ∀ kv ∈ ts.foldl (bucketAssign buckets) gr, ∀ x ∈ kv.2, P x := by
  intro ts
  induction ts with
  | nil => intro gr hgr _; exact hgr
  | cons t ts ih =>
      intro gr hgr hts
      rw [List.foldl_cons]
      exact ih (bucketAssign buckets gr t)
        (bucketAssign_inv buckets gr t P hgr (hts t (List.mem_cons_self t ts)))
        (fun x hx => hts x (List.mem_cons_of_mem t hx))

theorem selectTopTeamsBySize_subset (teams : List TeamRec) (buckets : List Bucket)
    (t : TeamRec) (h : t ∈ selectTopTeamsBySize teams buckets) : t ∈ teams := by
  unfold selectTopTeamsBySize at h
  split at h
  · exact h
  · obtain ⟨b, _, hin⟩ := List.mem_flatMap.mp h
    cases hfind : (teams.foldl (bucketAssign buckets)
        ((firstDedup (buckets.map (fun b => b.label))).map (fun l => (l, [])))).find?
        (fun kv => decide (kv.1 = b.label)) with
    | none => rw [hfind] at hin; exact absurd hin (List.not_mem_nil t)
    | some kv =>
        rw [hfind] at hin
        have hkv := List.mem_of_find?_eq_some hfind
        refine foldl_bucketAssign_inv buckets (fun x => x ∈ teams) teams _ ?_
          (fun x hx => hx) kv hkv t hin
        intro kv0 hkv0 x hx
        obtain ⟨l, _, heq⟩ := List.mem_map.mp hkv0
        rw [← heq] at hx
        exact absurd hx (List.not_mem_nil x)

theorem finalSelection_subset (sortedRecs : List TeamRec) (buckets : List Bucket)
    (t : TeamRec) (h : t ∈ finalSelection sortedRecs buckets) : t ∈ sortedRecs := by
  unfold finalSelection at h
  split at h
  · exact List.take_subset 10 sortedRecs h
  · exact selectTopTeamsBySize_subset sortedRecs buckets t h

theorem m3ReconcileAux_members (evalT : List Person → ℚ × Metrics) :
    ∀ (ts : List TeamRec) (asg : List String) (started : Bool) (t2 : TeamRec),
      t2 ∈ m3ReconcileAux evalT ts asg started →
      ∀ m ∈ t2.members, ∃ r ∈ ts, m ∈ r.members := by
  intro ts
  induction ts with
  | nil =>
      intro asg started t2 h
      rw [m3ReconcileAux_nil] at h
      exact absurd h (List.not_mem_nil t2)
  | cons t ts ih =>
      intro asg started t2 ht2 m hm
      by_cases h : keepMembers asg t.members = []
      · rw [m3ReconcileAux_cons_empty evalT t ts asg started h] at ht2
        obtain ⟨r, hr, hmr⟩ := ih asg started t2 ht2 m hm
        exact ⟨r, List.mem_cons_of_mem t hr, hmr⟩
      · by_cases hg : started = true ∧
            (if (keepMembers asg t.members).length < t.members.length
             then recomputeRec evalT t (keepMembers asg t.members) else t).goodness < 1 / 5
        · rw [m3ReconcileAux_cons_drop evalT t ts asg started h hg] at ht2
          obtain ⟨r, hr, hmr⟩ := ih asg started t2 ht2 m hm
          exact ⟨r, List.mem_cons_of_mem t hr, hmr⟩
        · rw [m3ReconcileAux_cons_keep evalT t ts asg started h hg] at ht2
          rcases List.mem_cons.mp ht2 with heq | htail
          · refine ⟨t, List.mem_cons_self t ts, ?_⟩
            rw [heq] at hm
            revert hm
            split
            · rw [recomputeRec_members]
              intro hm
              exact (List.filter_sublist t.members).subset hm
            · exact fun hm => hm
          · obtain ⟨r, hr, hmr⟩ := ih _ true t2 htail m hm
            exact ⟨r, List.mem_cons_of_mem t hr, hmr⟩

theorem mem_addRanksFrom_members : ∀ (i : Nat) (l : List TeamRec) (t2 : TeamRec),
    t2 ∈ addRanksFrom i l → ∃ t0 ∈ l, t2.members = t0.members := by
  intro i l
  induction l generalizing i with
  | nil => intro t2 h; exact absurd h (List.not_mem_nil t2)
  | cons t ts ih =>
      intro t2 h
      rcases List.mem_cons.mp h with heq | htail
      · exact ⟨t, List.mem_cons_self t ts, by rw [heq]⟩
      · obtain ⟨t0, ht0, hm⟩ := ih (i + 1) t2 htail
        exact ⟨t0, List.mem_cons_of_mem t ht0, hm⟩

theorem m3Recs_members (evalT : List Person → ℚ × Metrics)
    (ranked : List (Person × ℚ)) (cap topkSwap : Nat) (r : TeamRec) (m : Person)
    (hr : r ∈ m3Recs evalT ranked cap topkSwap) (hm : m ∈ r.members) :
    ∃ pr ∈ ranked, pr.1 = m := by
  have hbuild : ∀ x ∈ m3BuildTeam evalT ranked cap [] [] (evalT []).1,
      ∃ pr ∈ ranked, pr.1 = x := by
    intro x hx
    rcases m3BuildTeam_mem evalT ranked cap [] [] (evalT []).1 x hx with h1 | h1
    · exact absurd h1 (List.not_mem_nil x)
    · exact h1
  rcases List.mem_cons.mp hr with heq | hvar
  · rw [heq, mkRec_members] at hm
    exact hbuild m hm
  · rcases variantRecs_members evalT ranked _ topkSwap r m hvar hm with h1 | h1
    · exact hbuild m h1
    · exact h1

/-- Whether every member of every returned team is free of schedule
conflicts with the task interval (vacuously true for an aborted
request). -/
def noScheduleOverlap (schedule : String → ScheduleInfo) (task : ℚ × ℚ)
    (res : Except String (List TeamRec)) : Bool :=
  match res with
  | Except.error _ => true
  | Except.ok teams =>
      teams.all (fun t => t.members.all (fun m =>
        !intervalsOverlapB (schedule m.pid).intervals task))

/-- C9: for every input, every responder with a scheduled busy
interval overlapping the task interval is excluded from the candidate
pool, and no member of any team returned by `run_recommender` has a
schedule overlap with the task interval. -/
theorem no_overlapping_member_returned (schedule : String → ScheduleInfo)
    (task : ℚ × ℚ) (taskWeekHours : List (WeekKey × ℚ)) (quota pen : ℚ)
    (people : List Person) (required : List String) (sev : Nat) (propLoc : String)
    (distLookup : String → String → Option ℚ) (dScale dDecay : ℚ) (expQ : ℚ → ℚ)
    (textSim : Person → ℚ) (clf : List ℚ → ℚ) (sim : String → String → ℚ)
    (sample : List (List Nat) → Nat → List (List Nat)) (tau : ℚ) (kRobust : Nat)
    (lr ls lw : ℚ) (teamSize : Option Nat) (softCap topkSwap : Nat)
    (buckets : List Bucket) :
    noScheduleOverlap schedule task
      (runRecommender schedule task taskWeekHours quota pen people required sev
        propLoc distLookup dScale dDecay expQ textSim clf sim sample tau kRobust
        lr ls lw teamSize softCap topkSwap buckets) = true := by
  unfold runRecommender
  split
  · rfl
  split
  · rfl
  split
  · rfl
  show (m3Reconcile _ _).all _ = true
  rw [List.all_eq_true]
  intro t ht
  rw [List.all_eq_true]
  intro m hm
  rw [Bool.not_eq_true']
  -- trace the member back through the pipeline stages
  obtain ⟨t0, ht0, hmems⟩ := mem_addRanksFrom_members 0 _ t ht
  rw [hmems] at hm
  obtain ⟨r, hr, hmr⟩ := m3ReconcileAux_members _ _ [] false t0 ht0 m hm
  have hr2 := finalSelection_subset _ buckets r hr
  have hr3 := mem_sortDescBy recKeyGT _ r hr2
  have hr4 := mem_dedupRecs _ r hr3
  obtain ⟨pr, hpr, hpreq⟩ := m3Recs_members _ _ (softCapOf teamSize softCap) topkSwap
    r m hr4 hmr
  obtain ⟨q, hq, hpid⟩ := rankStage_pid textSim clf sev propLoc distLookup dScale
    dDecay expQ (filteredPeople schedule task taskWeekHours quota pen people) pr hpr
  rw [← hpreq, hpid]
  exact filteredPeople_no_overlap schedule task taskWeekHours quota pen people q hq

end GramConnect
